import Mathlib

/-!
Verification of the query execution layer of the LLM_Web_App repository.

The development embeds the Python string-processing functions of
`backend/app.py`, the connection pool and the pure stages of
`SQLServerService.execute_query` from `backend/sql_server_service.py`, and
the cache stub of `backend/cache_service.py`.  Query strings are embedded
as `List Char`; each regular expression used by the source is implemented
as an explicit scanner over the character list, mirroring Python `re`
semantics (leftmost scan; the character classes involved admit maximal
munch without backtracking).
-/

namespace LLMWebApp

/-! ### Characters

ASCII classification mirroring the Python predicates the source relies on
(`str.upper`, `str.lower`, `str.strip`, `\s`, `\d`, `\w`). -/

def isWs (c : Char) : Bool :=
  c.toNat = 32 || c.toNat = 9 || c.toNat = 10 || c.toNat = 13 || c.toNat = 11 || c.toNat = 12

def isDig (c : Char) : Bool :=
  48 ≤ c.toNat && c.toNat ≤ 57

def isLowerAZ (c : Char) : Bool :=
  97 ≤ c.toNat && c.toNat ≤ 122

def isUpperAZ (c : Char) : Bool :=
  65 ≤ c.toNat && c.toNat ≤ 90

def isWordChar (c : Char) : Bool :=
  isDig c || isLowerAZ c || isUpperAZ c || c.toNat = 95

/-- `str.upper` on one ASCII character. -/
def upChar (c : Char) : Char :=
  if isLowerAZ c then Char.ofNat (c.toNat - 32) else c

/-- `str.lower` on one ASCII character. -/
def lowChar (c : Char) : Char :=
  if isUpperAZ c then Char.ofNat (c.toNat + 32) else c

theorem isDig_not_lower {c : Char} (h : isDig c = true) : isLowerAZ c = false := by
  simp only [isDig, Bool.and_eq_true, decide_eq_true_eq] at h
  simp only [isLowerAZ, Bool.and_eq_false_iff, decide_eq_false_iff_not]
  omega

theorem upChar_digit {c : Char} (h : isDig c = true) : upChar c = c := by
  simp [upChar, isDig_not_lower h]

theorem isDig_ne {c d : Char} (hc : isDig c = true) (hd : isDig d = false) : c ≠ d := by
  intro he
  subst he
  rw [hc] at hd
  cases hd

theorem isWs_of_isDig {c : Char} (h : isDig c = true) : isWs c = false := by
  simp only [isDig, Bool.and_eq_true, decide_eq_true_eq] at h
  simp only [isWs, Bool.or_eq_false_iff, decide_eq_false_iff_not]
  omega

/-! ### Decimal digits

`digitChar`/`parseDigits` model Python's `f"{n}"` formatting and `int(s)`
parsing of a digit string.  `natChars` is fuel-based so that it reduces in
the kernel on concrete inputs. -/

def digitChar : Nat → Char
  | 0 => '0'
  | 1 => '1'
  | 2 => '2'
  | 3 => '3'
  | 4 => '4'
  | 5 => '5'
  | 6 => '6'
  | 7 => '7'
  | 8 => '8'
  | 9 => '9'
  | _ => '0'

def digitVal (c : Char) : Nat := c.toNat - 48

def natCharsF : Nat → Nat → List Char
  | 0, _ => []
  | fuel + 1, n => if n < 10 then [digitChar n] else natCharsF fuel (n / 10) ++ [digitChar (n % 10)]

/-- Decimal representation of a natural number, most significant digit first. -/
def natChars (n : Nat) : List Char := natCharsF (n + 1) n

/-- Decimal representation of a Python `int`. -/
def intChars (i : Int) : List Char :=
  if i < 0 then '-' :: natChars i.natAbs else natChars i.toNat

/-- `int` applied to a string of decimal digits. -/
def parseDigits (l : List Char) : Nat := l.foldl (fun a c => 10 * a + digitVal c) 0

theorem digitVal_digitChar {d : Nat} (h : d < 10) : digitVal (digitChar d) = d := by
  match d, h with
  | 0, _ => decide
  | 1, _ => decide
  | 2, _ => decide
  | 3, _ => decide
  | 4, _ => decide
  | 5, _ => decide
  | 6, _ => decide
  | 7, _ => decide
  | 8, _ => decide
  | 9, _ => decide

theorem isDig_digitChar {d : Nat} (h : d < 10) : isDig (digitChar d) = true := by
  match d, h with
  | 0, _ => decide
  | 1, _ => decide
  | 2, _ => decide
  | 3, _ => decide
  | 4, _ => decide
  | 5, _ => decide
  | 6, _ => decide
  | 7, _ => decide
  | 8, _ => decide
  | 9, _ => decide

theorem natCharsF_fuel : ∀ f₁ f₂ n, n < f₁ → n < f₂ → natCharsF f₁ n = natCharsF f₂ n := by
  intro f₁
  induction f₁ with
  | zero => intro f₂ n h₁ _; omega
  | succ f ih =>
    intro f₂ n h₁ h₂
    match f₂, h₂ with
    | f₂ + 1, h₂ =>
      simp only [natCharsF]
      by_cases h : n < 10
      · simp [h]
      · simp only [h, if_false]
        have hd : n / 10 < n := Nat.div_lt_self (by omega) (by omega)
        rw [ih f₂ (n / 10) (by omega) (by omega)]

theorem natCharsF_eq_natChars {f n : Nat} (h : n < f) : natCharsF f n = natChars n :=
  natCharsF_fuel f (n + 1) n h (Nat.lt_succ_self n)

theorem natChars_step {n : Nat} (h : ¬ n < 10) :
    natChars n = natChars (n / 10) ++ [digitChar (n % 10)] := by
  have hd : n / 10 < n := Nat.div_lt_self (by omega) (by omega)
  rw [natChars]
  simp only [natCharsF, h, if_false]
  rw [natCharsF_eq_natChars (by omega)]

theorem natChars_small {n : Nat} (h : n < 10) : natChars n = [digitChar n] := by
  rw [natChars]
  simp [natCharsF, h]

theorem natChars_all_digits : ∀ n, ∀ c ∈ natChars n, isDig c = true := by
  intro n
  induction n using Nat.strong_induction_on with
  | _ n ih =>
    by_cases h : n < 10
    · rw [natChars_small h]
      intro c hc
      simp only [List.mem_singleton] at hc
      subst hc
      exact isDig_digitChar h
    · rw [natChars_step h]
      intro c hc
      rcases List.mem_append.mp hc with hc | hc
      · exact ih (n / 10) (Nat.div_lt_self (by omega) (by omega)) c hc
      · simp only [List.mem_singleton] at hc
        subst hc
        exact isDig_digitChar (Nat.mod_lt n (by omega))

theorem natChars_ne_nil (n : Nat) : natChars n ≠ [] := by
  by_cases h : n < 10
  · rw [natChars_small h]; simp
  · rw [natChars_step h]; simp

theorem parseDigits_append_one (l : List Char) (c : Char) :
    parseDigits (l ++ [c]) = 10 * parseDigits l + digitVal c := by
  simp [parseDigits, List.foldl_append]

theorem parseDigits_natChars : ∀ n, parseDigits (natChars n) = n := by
  intro n
  induction n using Nat.strong_induction_on with
  | _ n ih =>
    by_cases h : n < 10
    · rw [natChars_small h]
      simp [parseDigits, digitVal_digitChar h]
    · rw [natChars_step h, parseDigits_append_one,
        ih (n / 10) (Nat.div_lt_self (by omega) (by omega)),
        digitVal_digitChar (Nat.mod_lt n (by omega))]
      omega

/-! ### List-of-characters string operations

These model the Python `str` operations used by the source:
`pat in s` (`hasSub`), `s.startswith(pat)` (`startsWithL`),
`s.replace(old, new, 1)` (`replaceFirst`), `s.upper()`/`s.lower()`
(`upperL`/`lowerL`) and `s.strip()` (`stripL`). -/

def upperL (l : List Char) : List Char := l.map upChar

def lowerL (l : List Char) : List Char := l.map lowChar

def startsWithL : List Char → List Char → Bool
  | _, [] => true
  | [], _ :: _ => false
  | c :: t, p :: ps => decide (c = p) && startsWithL t ps

def hasSub : List Char → List Char → Bool
  | [], pat => startsWithL [] pat
  | c :: t, pat => startsWithL (c :: t) pat || hasSub t pat

def replaceFirst : List Char → List Char → List Char → List Char
  | [], _, _ => []
  | c :: t, pat, rep =>
    if startsWithL (c :: t) pat then rep ++ (c :: t).drop pat.length
    else c :: replaceFirst t pat rep

def stripL (l : List Char) : List Char :=
  ((l.dropWhile isWs).reverse.dropWhile isWs).reverse

theorem upperL_append (a b : List Char) : upperL (a ++ b) = upperL a ++ upperL b := by
  simp [upperL]

theorem upperL_digits {l : List Char} (h : ∀ c ∈ l, isDig c = true) : upperL l = l := by
  induction l with
  | nil => rfl
  | cons c t ih =>
    simp only [upperL, List.map_cons]
    rw [upChar_digit (h c (by simp))]
    have := ih (fun x hx => h x (by simp [hx]))
    simp only [upperL] at this
    rw [this]

theorem startsWithL_iff (l pat : List Char) :
    startsWithL l pat = true ↔ ∃ suf, l = pat ++ suf := by
  induction pat generalizing l with
  | nil => simp [startsWithL]
  | cons p ps ih =>
    cases l with
    | nil =>
      simp only [startsWithL, List.append_eq]
      constructor
      · intro h; cases h
      · rintro ⟨suf, h⟩; cases h
    | cons c t =>
      simp only [startsWithL, Bool.and_eq_true, decide_eq_true_eq, ih]
      constructor
      · rintro ⟨he, suf, hs⟩
        exact ⟨suf, by rw [he, hs]; rfl⟩
      · rintro ⟨suf, h⟩
        injection h with h1 h2
        exact ⟨h1, suf, h2⟩

theorem startsWithL_append_left {l pat : List Char} (h : startsWithL l pat = true)
    (b : List Char) : startsWithL (l ++ b) pat = true := by
  rcases (startsWithL_iff l pat).mp h with ⟨suf, hs⟩
  exact (startsWithL_iff _ _).mpr ⟨suf ++ b, by rw [hs]; simp⟩

theorem startsWithL_self_append (pat b : List Char) : startsWithL (pat ++ b) pat = true :=
  (startsWithL_iff _ _).mpr ⟨b, rfl⟩

theorem hasSub_append_left {a : List Char} (pat : List Char) (h : hasSub a pat = true)
    (b : List Char) : hasSub (a ++ b) pat = true := by
  induction a with
  | nil =>
    simp only [hasSub] at h
    cases pat with
    | nil =>
      cases b with
      | nil => exact h
      | cons c t => simp [hasSub, startsWithL]
    | cons p ps => simp [startsWithL] at h
  | cons c t ih =>
    simp only [hasSub, Bool.or_eq_true] at h ⊢
    rcases h with h | h
    · exact Or.inl (startsWithL_append_left h b)
    · exact Or.inr (ih h)

theorem hasSub_append_right (a : List Char) {b pat : List Char} (h : hasSub b pat = true) :
    hasSub (a ++ b) pat = true := by
  induction a with
  | nil => exact h
  | cons c t ih =>
    simp only [List.cons_append, hasSub, Bool.or_eq_true]
    exact Or.inr ih

/-- A decomposition of the first-occurrence replacement performed by
`str.replace(pat, rep, 1)`. -/
theorem replaceFirst_decomp {l pat : List Char} (rep : List Char) (h : hasSub l pat = true)
    (hne : pat ≠ []) :
    ∃ pre suf, l = pre ++ pat ++ suf ∧ replaceFirst l pat rep = pre ++ rep ++ suf := by
  induction l with
  | nil =>
    simp only [hasSub] at h
    cases pat with
    | nil => exact absurd rfl hne
    | cons p ps => simp [startsWithL] at h
  | cons c t ih =>
    by_cases hs : startsWithL (c :: t) pat = true
    · rcases (startsWithL_iff _ _).mp hs with ⟨suf, hdec⟩
      refine ⟨[], suf, by simpa using hdec, ?_⟩
      simp only [replaceFirst, hs, if_true, List.nil_append]
      rw [hdec]
      simp
    · simp only [hasSub, Bool.or_eq_true] at h
      rcases h with h | h
      · exact absurd h hs
      · rcases ih h with ⟨pre, suf, hdec, hrep⟩
        refine ⟨c :: pre, suf, by simp [hdec], ?_⟩
        simp only [replaceFirst, hs, if_false]
        rw [hrep]
        simp

theorem replaceFirst_no_occ {l pat : List Char} (rep : List Char) (h : hasSub l pat = false) :
    replaceFirst l pat rep = l := by
  induction l with
  | nil => rfl
  | cons c t ih =>
    simp only [hasSub, Bool.or_eq_false_iff] at h
    simp [replaceFirst, h.1, ih h.2]

/-! ### Mismatch witnesses

`swvCS pat l` (case-sensitive) holds when the available characters of `l`
already refute a match of `pat` at the head of `l ++ r`, for every
continuation `r`.  `noSpanCS pat l` extends this to every nonempty suffix
of `l`, so a scanner can skip the whole of `l` regardless of what follows.
`swvCI`/`noSpanCI` are the case-insensitive analogues used by the regex
scanners (which compare through `upChar`). -/

def swvCS : List Char → List Char → Bool
  | [], _ => false
  | _ :: _, [] => false
  | p :: ps, c :: t => if c = p then swvCS ps t else true

def noSpanCS (pat : List Char) : List Char → Bool
  | [] => true
  | c :: t => swvCS pat (c :: t) && noSpanCS pat t

def swvCI : List Char → List Char → Bool
  | [], _ => false
  | _ :: _, [] => false
  | p :: ps, c :: t => if upChar c = p then swvCI ps t else true

def noSpanCI (pat : List Char) : List Char → Bool
  | [] => true
  | c :: t => swvCI pat (c :: t) && noSpanCI pat t

theorem swvCS_append {pat l : List Char} (h : swvCS pat l = true) (r : List Char) :
    swvCS pat (l ++ r) = true := by
  induction pat generalizing l with
  | nil => simp [swvCS] at h
  | cons p ps ih =>
    cases l with
    | nil => simp [swvCS] at h
    | cons c t =>
      simp only [swvCS, List.cons_append] at h ⊢
      by_cases hc : c = p
      · simp only [hc, if_true] at h ⊢
        exact ih h
      · simp [hc]

theorem swvCS_startsWithL_false {pat l : List Char} (h : swvCS pat l = true) (r : List Char) :
    startsWithL (l ++ r) pat = false := by
  induction pat generalizing l with
  | nil => simp [swvCS] at h
  | cons p ps ih =>
    cases l with
    | nil => simp [swvCS] at h
    | cons c t =>
      simp only [swvCS] at h
      simp only [List.cons_append, startsWithL, Bool.and_eq_false_iff]
      by_cases hc : c = p
      · simp only [hc, if_true] at h
        exact Or.inr (ih h)
      · exact Or.inl (by simp [hc])

theorem noSpanCS_append {pat a b : List Char} (ha : noSpanCS pat a = true)
    (hb : noSpanCS pat b = true) : noSpanCS pat (a ++ b) = true := by
  induction a with
  | nil => exact hb
  | cons c t ih =>
    simp only [noSpanCS, Bool.and_eq_true] at ha
    simp only [List.cons_append, noSpanCS, Bool.and_eq_true]
    exact ⟨swvCS_append ha.1 b, ih ha.2⟩

theorem noSpanCS_digits {p : Char} {ps l : List Char} (hp : isDig p = false)
    (hl : ∀ c ∈ l, isDig c = true) : noSpanCS (p :: ps) l = true := by
  induction l with
  | nil => rfl
  | cons c t ih =>
    simp only [noSpanCS, Bool.and_eq_true]
    constructor
    · simp only [swvCS]
      have : c ≠ p := isDig_ne (hl c (by simp)) hp
      simp [this]
    · exact ih (fun x hx => hl x (by simp [hx]))

theorem hasSub_append_false {pat a b : List Char} (ha : noSpanCS pat a = true)
    (hb : hasSub b pat = false) : hasSub (a ++ b) pat = false := by
  induction a with
  | nil => exact hb
  | cons c t ih =>
    simp only [noSpanCS, Bool.and_eq_true] at ha
    simp only [List.cons_append, hasSub, Bool.or_eq_false_iff]
    refine ⟨?_, ih ha.2⟩
    have := swvCS_startsWithL_false ha.1 b
    simpa using this

theorem swvCI_append {pat l : List Char} (h : swvCI pat l = true) (r : List Char) :
    swvCI pat (l ++ r) = true := by
  induction pat generalizing l with
  | nil => simp [swvCI] at h
  | cons p ps ih =>
    cases l with
    | nil => simp [swvCI] at h
    | cons c t =>
      simp only [swvCI, List.cons_append] at h ⊢
      by_cases hc : upChar c = p
      · simp only [hc, if_true] at h ⊢
        exact ih h
      · simp [hc]

theorem noSpanCI_append {pat a b : List Char} (ha : noSpanCI pat a = true)
    (hb : noSpanCI pat b = true) : noSpanCI pat (a ++ b) = true := by
  induction a with
  | nil => exact hb
  | cons c t ih =>
    simp only [noSpanCI, Bool.and_eq_true] at ha
    simp only [List.cons_append, noSpanCI, Bool.and_eq_true]
    exact ⟨swvCI_append ha.1 b, ih ha.2⟩

theorem noSpanCI_digits {p : Char} {ps l : List Char} (hp : isDig p = false)
    (hl : ∀ c ∈ l, isDig c = true) : noSpanCI (p :: ps) l = true := by
  induction l with
  | nil => rfl
  | cons c t ih =>
    simp only [noSpanCI, Bool.and_eq_true]
    constructor
    · simp only [swvCI]
      have hd : isDig (upChar c) = true := by
        rw [upChar_digit (hl c (by simp))]
        exact hl c (by simp)
      have : upChar c ≠ p := isDig_ne hd hp
      simp [this]
    · exact ih (fun x hx => hl x (by simp [hx]))

/-! ### Parsing primitives

Building blocks for the source's regular expressions: a case-insensitive
literal (`pLitCI`, patterns are written in uppercase), a case-sensitive
literal (`pLit`, used on already-lowercased text), and the greedy
one-or-more / zero-or-more character classes.  Each primitive returns the
consumed characters and the remaining input. -/

def pLitCI : List Char → List Char → Option (List Char × List Char)
  | [], l => some ([], l)
  | _ :: _, [] => none
  | p :: ps, c :: t =>
    if upChar c = p then
      match pLitCI ps t with
      | some (co, r) => some (c :: co, r)
      | none => none
    else none

def pLit : List Char → List Char → Option (List Char × List Char)
  | [], l => some ([], l)
  | _ :: _, [] => none
  | p :: ps, c :: t =>
    if c = p then
      match pLit ps t with
      | some (co, r) => some (c :: co, r)
      | none => none
    else none

def pWs1 (l : List Char) : Option (List Char × List Char) :=
  match l.takeWhile isWs with
  | [] => none
  | c :: t => some (c :: t, l.dropWhile isWs)

def pDigits1 (l : List Char) : Option (List Char × List Char) :=
  match l.takeWhile isDig with
  | [] => none
  | c :: t => some (c :: t, l.dropWhile isDig)

def pWord1 (l : List Char) : Option (List Char × List Char) :=
  match l.takeWhile isWordChar with
  | [] => none
  | c :: t => some (c :: t, l.dropWhile isWordChar)

/-- `[^;\s]` -/
def isPlain (c : Char) : Bool := !(isWs c || decide (c = ';'))

def pPlain1 (l : List Char) : Option (List Char × List Char) :=
  match l.takeWhile isPlain with
  | [] => none
  | c :: t => some (c :: t, l.dropWhile isPlain)

def pWsStar (l : List Char) : List Char × List Char :=
  (l.takeWhile isWs, l.dropWhile isWs)

/-- `S?`, case-insensitively (the optional plural of `ROWS?`). -/
def pOptSCI : List Char → List Char × List Char
  | [] => ([], [])
  | c :: t => if upChar c = 'S' then ([c], t) else ([], c :: t)

theorem pLitCI_sound :
    ∀ pat l co r, pLitCI pat l = some (co, r) → l = co ++ r ∧ co.length = pat.length := by
  intro pat
  induction pat with
  | nil =>
    intro l co r h
    simp only [pLitCI, Option.some.injEq, Prod.mk.injEq] at h
    rw [← h.1, ← h.2]
    exact ⟨rfl, rfl⟩
  | cons p ps ih =>
    intro l co r h
    cases l with
    | nil => simp [pLitCI] at h
    | cons c t =>
      simp only [pLitCI] at h
      by_cases hc : upChar c = p
      · simp only [hc, if_true] at h
        cases hi : pLitCI ps t with
        | none => rw [hi] at h; cases h
        | some pr =>
          rcases pr with ⟨co1, r1⟩
          rw [hi] at h
          simp only [Option.some.injEq, Prod.mk.injEq] at h
          rcases ih t co1 r1 hi with ⟨he, hl⟩
          rw [← h.1, ← h.2]
          constructor
          · rw [he]; rfl
          · simp [hl]
      · simp [hc] at h

theorem pLitCI_none_of_swv {pat x : List Char} (h : swvCI pat x = true) (r : List Char) :
    pLitCI pat (x ++ r) = none := by
  induction pat generalizing x with
  | nil => simp [swvCI] at h
  | cons p ps ih =>
    cases x with
    | nil => simp [swvCI] at h
    | cons c t =>
      simp only [swvCI] at h
      show pLitCI (p :: ps) (c :: (t ++ r)) = none
      by_cases hc : upChar c = p
      · simp only [hc, if_true] at h
        have hn := ih h
        simp [pLitCI, hc, hn]
      · simp [pLitCI, hc]

theorem pLitCI_of_upper :
    ∀ a pat r, upperL a = pat → pLitCI pat (a ++ r) = some (a, r) := by
  intro a
  induction a with
  | nil =>
    intro pat r h
    rw [← h]
    rfl
  | cons c t ih =>
    intro pat r h
    rw [← h]
    have ht : pLitCI (upperL t) (t ++ r) = some (t, r) := ih (upperL t) r rfl
    show pLitCI (upChar c :: upperL t) (c :: (t ++ r)) = some (c :: t, r)
    simp [pLitCI, ht]

theorem dropWhile_length_le (p : Char → Bool) (l : List Char) :
    (l.dropWhile p).length ≤ l.length := by
  induction l with
  | nil => simp [List.dropWhile]
  | cons c t ih =>
    simp only [List.dropWhile_cons]
    by_cases h : p c = true
    · simp only [h, if_true]
      exact Nat.le_succ_of_le ih
    · simp [h]

theorem pWs1_sound {l co r : List Char} (h : pWs1 l = some (co, r)) :
    l = co ++ r ∧ co ≠ [] := by
  revert h
  unfold pWs1
  cases ht : l.takeWhile isWs with
  | nil => intro h; cases h
  | cons c t =>
    intro h
    simp only [Option.some.injEq, Prod.mk.injEq] at h
    rw [← h.1, ← h.2]
    refine ⟨?_, by simp⟩
    rw [← ht]
    exact (List.takeWhile_append_dropWhile _ _).symm

theorem pDigits1_sound {l co r : List Char} (h : pDigits1 l = some (co, r)) :
    l = co ++ r ∧ co ≠ [] := by
  revert h
  unfold pDigits1
  cases ht : l.takeWhile isDig with
  | nil => intro h; cases h
  | cons c t =>
    intro h
    simp only [Option.some.injEq, Prod.mk.injEq] at h
    rw [← h.1, ← h.2]
    refine ⟨?_, by simp⟩
    rw [← ht]
    exact (List.takeWhile_append_dropWhile _ _).symm

theorem pWord1_sound {l co r : List Char} (h : pWord1 l = some (co, r)) :
    l = co ++ r ∧ co ≠ [] := by
  revert h
  unfold pWord1
  cases ht : l.takeWhile isWordChar with
  | nil => intro h; cases h
  | cons c t =>
    intro h
    simp only [Option.some.injEq, Prod.mk.injEq] at h
    rw [← h.1, ← h.2]
    refine ⟨?_, by simp⟩
    rw [← ht]
    exact (List.takeWhile_append_dropWhile _ _).symm

theorem pPlain1_sound {l co r : List Char} (h : pPlain1 l = some (co, r)) :
    l = co ++ r ∧ co ≠ [] := by
  revert h
  unfold pPlain1
  cases ht : l.takeWhile isPlain with
  | nil => intro h; cases h
  | cons c t =>
    intro h
    simp only [Option.some.injEq, Prod.mk.injEq] at h
    rw [← h.1, ← h.2]
    refine ⟨?_, by simp⟩
    rw [← ht]
    exact (List.takeWhile_append_dropWhile _ _).symm

theorem pWsStar_sound (l : List Char) : l = (pWsStar l).1 ++ (pWsStar l).2 :=
  (List.takeWhile_append_dropWhile isWs l).symm

theorem pWsStar_length_le (l : List Char) : (pWsStar l).2.length ≤ l.length :=
  dropWhile_length_le isWs l

theorem pOptSCI_sound (l : List Char) : l = (pOptSCI l).1 ++ (pOptSCI l).2 := by
  cases l with
  | nil => rfl
  | cons c t =>
    simp only [pOptSCI]
    by_cases h : upChar c = 'S'
    · simp [h]
    · simp [h]

theorem pOptSCI_length_le (l : List Char) : (pOptSCI l).2.length ≤ l.length := by
  cases l with
  | nil => simp [pOptSCI]
  | cons c t =>
    simp only [pOptSCI]
    by_cases h : upChar c = 'S'
    · simp [h]
    · simp [h]

/-! Positive characterizations of the greedy classes on inputs of the shape
`satisfying-run ++ rest` where the head of `rest` breaks the run. -/

def headNotB (p : Char → Bool) : List Char → Bool
  | [] => true
  | c :: _ => !p c

theorem takeWhile_all_append {p : Char → Bool} {a : List Char} (b : List Char)
    (ha : ∀ c ∈ a, p c = true) : (a ++ b).takeWhile p = a ++ b.takeWhile p := by
  induction a with
  | nil => rfl
  | cons c t ih =>
    simp only [List.cons_append, List.takeWhile_cons, ha c (by simp), if_true]
    rw [ih (fun x hx => ha x (by simp [hx]))]

theorem dropWhile_all_append {p : Char → Bool} {a : List Char} (b : List Char)
    (ha : ∀ c ∈ a, p c = true) : (a ++ b).dropWhile p = b.dropWhile p := by
  induction a with
  | nil => rfl
  | cons c t ih =>
    simp only [List.cons_append, List.dropWhile_cons, ha c (by simp), if_true]
    exact ih (fun x hx => ha x (by simp [hx]))

theorem takeWhile_headNot {p : Char → Bool} {b : List Char} (hb : headNotB p b = true) :
    b.takeWhile p = [] := by
  cases b with
  | nil => rfl
  | cons c t =>
    simp only [headNotB, Bool.not_eq_true'] at hb
    simp [List.takeWhile_cons, hb]

theorem dropWhile_headNot {p : Char → Bool} {b : List Char} (hb : headNotB p b = true) :
    b.dropWhile p = b := by
  cases b with
  | nil => rfl
  | cons c t =>
    simp only [headNotB, Bool.not_eq_true'] at hb
    simp [List.dropWhile_cons, hb]

theorem pWs1_pos {w b : List Char} (hw : ∀ c ∈ w, isWs c = true) (hne : w ≠ [])
    (hb : headNotB isWs b = true) : pWs1 (w ++ b) = some (w, b) := by
  unfold pWs1
  rw [takeWhile_all_append b hw, takeWhile_headNot hb, dropWhile_all_append b hw,
    dropWhile_headNot hb, List.append_nil]
  cases w with
  | nil => exact absurd rfl hne
  | cons c t => rfl

theorem pDigits1_pos {w b : List Char} (hw : ∀ c ∈ w, isDig c = true) (hne : w ≠ [])
    (hb : headNotB isDig b = true) : pDigits1 (w ++ b) = some (w, b) := by
  unfold pDigits1
  rw [takeWhile_all_append b hw, takeWhile_headNot hb, dropWhile_all_append b hw,
    dropWhile_headNot hb, List.append_nil]
  cases w with
  | nil => exact absurd rfl hne
  | cons c t => rfl

theorem pWsStar_pos {w b : List Char} (hw : ∀ c ∈ w, isWs c = true)
    (hb : headNotB isWs b = true) : pWsStar (w ++ b) = (w, b) := by
  unfold pWsStar
  rw [takeWhile_all_append b hw, takeWhile_headNot hb, dropWhile_all_append b hw,
    dropWhile_headNot hb, List.append_nil]

theorem headNotB_isWs_of_digits {l : List Char} (h : ∀ c ∈ l, isDig c = true) (hne : l ≠ []) :
    headNotB isWs l = true := by
  cases l with
  | nil => exact absurd rfl hne
  | cons c t =>
    simp only [headNotB, Bool.not_eq_true']
    exact isWs_of_isDig (h c (by simp))

/-! ### Generic scanners

`scanSub m` models `re.sub` for a pattern whose head-match function is `m`:
`m l` returns, when the pattern matches at the head of `l`, the replacement
text to emit and the input remaining after the match.  `scanFind m` models
`re.search`, returning the payload of the leftmost match.  `countOccCI pat`
counts the positions at which the case-insensitive literal `pat` occurs
(an observer used to state uniqueness of a construct). -/

def Shrinks (m : List Char → Option (List Char × List Char)) : Prop :=
  ∀ l e r, m l = some (e, r) → r.length < l.length

def scanSubF (m : List Char → Option (List Char × List Char)) : Nat → List Char → List Char
  | 0, l => l
  | _ + 1, [] => []
  | fuel + 1, c :: t =>
    match m (c :: t) with
    | some (e, r) => e ++ scanSubF m fuel r
    | none => c :: scanSubF m fuel t

def scanSub (m : List Char → Option (List Char × List Char)) (l : List Char) : List Char :=
  scanSubF m l.length l

def scanFind {β : Type} (m : List Char → Option β) : List Char → Option β
  | [] => none
  | c :: t =>
    match m (c :: t) with
    | some d => some d
    | none => scanFind m t

def countOccCI (pat : List Char) : List Char → Nat
  | [] => 0
  | c :: t => (if (pLitCI pat (c :: t)).isSome then 1 else 0) + countOccCI pat t

theorem scanSubF_fuel {m : List Char → Option (List Char × List Char)} (hm : Shrinks m) :
    ∀ f₁ f₂ l, l.length ≤ f₁ → l.length ≤ f₂ → scanSubF m f₁ l = scanSubF m f₂ l := by
  intro f₁
  induction f₁ with
  | zero =>
    intro f₂ l h₁ _
    have : l = [] := List.eq_nil_of_length_eq_zero (by omega)
    subst this
    cases f₂ with
    | zero => rfl
    | succ f => rfl
  | succ f ih =>
    intro f₂ l h₁ h₂
    cases l with
    | nil =>
      cases f₂ with
      | zero => rfl
      | succ g => rfl
    | cons c t =>
      cases f₂ with
      | zero => simp at h₂
      | succ g =>
        simp only [List.length_cons] at h₁ h₂
        cases hmv : m (c :: t) with
        | some er =>
          rcases er with ⟨e, r⟩
          have hlt : r.length < t.length + 1 := hm (c :: t) e r hmv
          simp only [scanSubF, hmv]
          rw [ih g r (by omega) (by omega)]
        | none =>
          simp only [scanSubF, hmv]
          rw [ih g t (by omega) (by omega)]

theorem scanSub_nil (m : List Char → Option (List Char × List Char)) : scanSub m [] = [] := rfl

theorem scanSub_cons_some {m : List Char → Option (List Char × List Char)} (hm : Shrinks m)
    {c : Char} {t e r : List Char} (h : m (c :: t) = some (e, r)) :
    scanSub m (c :: t) = e ++ scanSub m r := by
  have hlt : r.length < t.length + 1 := hm (c :: t) e r h
  unfold scanSub
  simp only [List.length_cons, scanSubF, h]
  rw [scanSubF_fuel hm t.length r.length r (by omega) (by omega)]

theorem scanSub_cons_none {m : List Char → Option (List Char × List Char)}
    {c : Char} {t : List Char} (h : m (c :: t) = none) :
    scanSub m (c :: t) = c :: scanSub m t := by
  unfold scanSub
  simp only [List.length_cons, scanSubF, h]

theorem scanSub_skip {m : List Char → Option (List Char × List Char)} {pat0 : List Char}
    (hfirst : ∀ l, pLitCI pat0 l = none → m l = none)
    {a : List Char} (b : List Char) (hns : noSpanCI pat0 a = true) :
    scanSub m (a ++ b) = a ++ scanSub m b := by
  induction a with
  | nil => rfl
  | cons c t ih =>
    simp only [noSpanCI, Bool.and_eq_true] at hns
    have hnone : m (c :: (t ++ b)) = none := by
      have := pLitCI_none_of_swv hns.1 b
      exact hfirst _ (by simpa using this)
    show scanSub m (c :: (t ++ b)) = c :: t ++ scanSub m b
    rw [scanSub_cons_none hnone, ih hns.2]
    rfl

theorem scanFind_cons_none {β : Type} {m : List Char → Option β}
    {c : Char} {t : List Char} (h : m (c :: t) = none) :
    scanFind m (c :: t) = scanFind m t := by
  simp [scanFind, h]

theorem countOccCI_cons_none {pat : List Char} {c : Char} {t : List Char}
    (h : pLitCI pat (c :: t) = none) :
    countOccCI pat (c :: t) = countOccCI pat t := by
  simp [countOccCI, h]

theorem countOccCI_cons_some {pat : List Char} {c : Char} {t : List Char}
    {v : List Char × List Char} (h : pLitCI pat (c :: t) = some v) :
    countOccCI pat (c :: t) = 1 + countOccCI pat t := by
  simp [countOccCI, h]

theorem scanFind_skip {β : Type} {m : List Char → Option β} {pat0 : List Char}
    (hfirst : ∀ l, pLitCI pat0 l = none → m l = none)
    {a : List Char} (b : List Char) (hns : noSpanCI pat0 a = true) :
    scanFind m (a ++ b) = scanFind m b := by
  induction a with
  | nil => rfl
  | cons c t ih =>
    simp only [noSpanCI, Bool.and_eq_true] at hns
    have hnone : m (c :: (t ++ b)) = none := by
      have := pLitCI_none_of_swv hns.1 b
      exact hfirst _ (by simpa using this)
    show scanFind m (c :: (t ++ b)) = scanFind m b
    rw [scanFind_cons_none hnone]
    exact ih hns.2

theorem scanFind_cons_some {β : Type} {m : List Char → Option β}
    {c : Char} {t : List Char} {d : β} (h : m (c :: t) = some d) :
    scanFind m (c :: t) = some d := by
  simp [scanFind, h]

theorem countOccCI_skip {pat a : List Char} (b : List Char) (hns : noSpanCI pat a = true) :
    countOccCI pat (a ++ b) = countOccCI pat b := by
  induction a with
  | nil => rfl
  | cons c t ih =>
    simp only [noSpanCI, Bool.and_eq_true] at hns
    have hnone : pLitCI pat (c :: (t ++ b)) = none := by
      have := pLitCI_none_of_swv hns.1 b
      simpa using this
    show countOccCI pat (c :: (t ++ b)) = countOccCI pat b
    rw [countOccCI_cons_none hnone]
    exact ih hns.2

/-! ### String literals used by the source -/

def litSELECT : List Char := "SELECT".data
def litTOP : List Char := "TOP".data
def litOFFSET : List Char := "OFFSET".data
def litLIMIT : List Char := "LIMIT".data
def litUPLOADED : List Char := "UPLOADED_".data
def litFETCHNEXT : List Char := "FETCH NEXT".data
def litFETCHFIRST : List Char := "FETCH FIRST".data
def litORDERBY : List Char := "ORDER BY".data
def litORDER : List Char := "ORDER".data
def litBY : List Char := "BY".data
def litROW : List Char := "ROW".data
def litASC : List Char := "ASC".data
def litDESC : List Char := "DESC".data
def litCOUNTP : List Char := "COUNT(".data
def litSUMP : List Char := "SUM(".data
def litDISTINCT : List Char := "DISTINCT".data
def litGROUPBY : List Char := "GROUP BY".data
def litDESCRIBE : List Char := "DESCRIBE".data
def litFETCH : List Char := "FETCH".data
def litNEXT : List Char := "NEXT".data
def litSELECTsp : List Char := "SELECT ".data
def litSELECTTOPsp : List Char := "SELECT TOP ".data
def litSpFETCHNEXTsp : List Char := " FETCH NEXT ".data
def litSpROWSONLYsp : List Char := " ROWS ONLY ".data
def litSpOFFSET0sp : List Char := " OFFSET 0 ROWS FETCH NEXT ".data
def litSpROWSONLY : List Char := " ROWS ONLY".data
def litOrderTail : List Char := " ORDER BY (SELECT NULL) OFFSET 0 ROWS FETCH NEXT ".data

/-! ### Head matchers for the source's regular expressions -/

/-- Head match of `SELECT\s+TOP\s+(\d+)` (case-insensitive; `app.py` line 74).
Returns `(consumed, digit group, rest)`. -/
def matchSelectTopNum (l : List Char) : Option (List Char × List Char × List Char) :=
  match pLitCI litSELECT l with
  | none => none
  | some (c1, r1) =>
    match pWs1 r1 with
    | none => none
    | some (c2, r2) =>
      match pLitCI litTOP r2 with
      | none => none
      | some (c3, r3) =>
        match pWs1 r3 with
        | none => none
        | some (c4, r4) =>
          match pDigits1 r4 with
          | none => none
          | some (d, r5) => some (c1 ++ c2 ++ c3 ++ c4 ++ d, d, r5)

/-- Head match of `(OFFSET\s+\d+\s+ROWS?)\s*` (`app.py` line 90).
Returns `(group, rest after the trailing whitespace)`. -/
def matchOffsetClause (l : List Char) : Option (List Char × List Char) :=
  match pLitCI litOFFSET l with
  | none => none
  | some (c1, r1) =>
    match pWs1 r1 with
    | none => none
    | some (c2, r2) =>
      match pDigits1 r2 with
      | none => none
      | some (c3, r3) =>
        match pWs1 r3 with
        | none => none
        | some (c4, r4) =>
          match pLitCI litROW r4 with
          | none => none
          | some (c5, r5) =>
            let s6 := pOptSCI r5
            let s7 := pWsStar s6.2
            some (c1 ++ c2 ++ c3 ++ c4 ++ c5 ++ s6.1, s7.2)

/-- Head match of `(ORDER\s+BY\s+[^;\s]+(?:\s+(?:ASC|DESC))?)` (`app.py` line 100).
Returns `(group, rest)`. -/
def matchOrderByClause (l : List Char) : Option (List Char × List Char) :=
  match pLitCI litORDER l with
  | none => none
  | some (c1, r1) =>
    match pWs1 r1 with
    | none => none
    | some (c2, r2) =>
      match pLitCI litBY r2 with
      | none => none
      | some (c3, r3) =>
        match pWs1 r3 with
        | none => none
        | some (c4, r4) =>
          match pPlain1 r4 with
          | none => none
          | some (c5, r5) =>
            let s6 :=
              match pWs1 r5 with
              | none => (([] : List Char), r5)
              | some (w, rw) =>
                match pLitCI litASC rw with
                | some (a, ra) => (w ++ a, ra)
                | none =>
                  match pLitCI litDESC rw with
                  | some (d, rd) => (w ++ d, rd)
                  | none => (([] : List Char), r5)
            some (c1 ++ c2 ++ c3 ++ c4 ++ c5 ++ s6.1, s6.2)

/-- Head match of `TOP\s+\w+\b` (`app.py` line 77); the leading `\b` is
checked by the caller, the trailing one is implied by the maximal `\w+`. -/
def matchTopWord (l : List Char) : Option (List Char × List Char) :=
  match pLitCI litTOP l with
  | none => none
  | some (c1, r1) =>
    match pWs1 r1 with
    | none => none
    | some (c2, r2) =>
      match pWord1 r2 with
      | none => none
      | some (c3, r3) => some (c1 ++ c2 ++ c3, r3)

/-- Observer: head match of `FETCH\s+NEXT\s+(\d+)`, used to state which row
count a rewritten pagination clause requests. -/
def matchFetchNextNum (l : List Char) : Option (List Char) :=
  match pLitCI litFETCH l with
  | none => none
  | some (_, r1) =>
    match pWs1 r1 with
    | none => none
    | some (_, r2) =>
      match pLitCI litNEXT r2 with
      | none => none
      | some (_, r3) =>
        match pWs1 r3 with
        | none => none
        | some (_, r4) =>
          match pDigits1 r4 with
          | none => none
          | some (d, _) => some d

theorem matchSelectTopNum_none {l : List Char} (h : pLitCI litSELECT l = none) :
    matchSelectTopNum l = none := by
  unfold matchSelectTopNum
  rw [h]

theorem matchOffsetClause_none {l : List Char} (h : pLitCI litOFFSET l = none) :
    matchOffsetClause l = none := by
  unfold matchOffsetClause
  rw [h]

theorem matchFetchNextNum_none {l : List Char} (h : pLitCI litFETCH l = none) :
    matchFetchNextNum l = none := by
  unfold matchFetchNextNum
  rw [h]

theorem matchSelectTopNum_sound :
    ∀ {l co d r}, matchSelectTopNum l = some (co, d, r) → l = co ++ r ∧ 0 < co.length := by
  intro l co d r h
  unfold matchSelectTopNum at h
  cases h1 : pLitCI litSELECT l with
  | none => rw [h1] at h; cases h
  | some p1 =>
    rcases p1 with ⟨c1, r1⟩
    rw [h1] at h
    simp only at h
    rcases pLitCI_sound _ _ _ _ h1 with ⟨he1, hl1⟩
    cases h2 : pWs1 r1 with
    | none => rw [h2] at h; simp at h
    | some p2 =>
      rcases p2 with ⟨c2, r2⟩
      rw [h2] at h
      simp only at h
      rcases pWs1_sound h2 with ⟨he2, _⟩
      cases h3 : pLitCI litTOP r2 with
      | none => rw [h3] at h; simp at h
      | some p3 =>
        rcases p3 with ⟨c3, r3⟩
        rw [h3] at h
        simp only at h
        rcases pLitCI_sound _ _ _ _ h3 with ⟨he3, _⟩
        cases h4 : pWs1 r3 with
        | none => rw [h4] at h; simp at h
        | some p4 =>
          rcases p4 with ⟨c4, r4⟩
          rw [h4] at h
          simp only at h
          rcases pWs1_sound h4 with ⟨he4, _⟩
          cases h5 : pDigits1 r4 with
          | none => rw [h5] at h; simp at h
          | some p5 =>
            rcases p5 with ⟨d5, r5⟩
            rw [h5] at h
            simp only at h
            rcases pDigits1_sound h5 with ⟨he5, _⟩
            simp only [Option.some.injEq, Prod.mk.injEq] at h
            rcases h with ⟨hco, _, hr⟩
            subst hco hr
            constructor
            · rw [he1, he2, he3, he4, he5]
              simp [List.append_assoc]
            · have h6 : litSELECT.length = 6 := by decide
              have : c1.length = litSELECT.length := hl1
              simp only [List.length_append]
              omega

theorem matchOffsetClause_sound :
    ∀ {l g r}, matchOffsetClause l = some (g, r) → r.length < l.length := by
  intro l g r h
  unfold matchOffsetClause at h
  cases h1 : pLitCI litOFFSET l with
  | none => rw [h1] at h; cases h
  | some p1 =>
    rcases p1 with ⟨c1, r1⟩
    rw [h1] at h
    simp only at h
    rcases pLitCI_sound _ _ _ _ h1 with ⟨he1, hl1⟩
    cases h2 : pWs1 r1 with
    | none => rw [h2] at h; simp at h
    | some p2 =>
      rcases p2 with ⟨c2, r2⟩
      rw [h2] at h
      simp only at h
      rcases pWs1_sound h2 with ⟨he2, _⟩
      cases h3 : pDigits1 r2 with
      | none => rw [h3] at h; simp at h
      | some p3 =>
        rcases p3 with ⟨c3, r3⟩
        rw [h3] at h
        simp only at h
        rcases pDigits1_sound h3 with ⟨he3, _⟩
        cases h4 : pWs1 r3 with
        | none => rw [h4] at h; simp at h
        | some p4 =>
          rcases p4 with ⟨c4, r4⟩
          rw [h4] at h
          simp only at h
          rcases pWs1_sound h4 with ⟨he4, _⟩
          cases h5 : pLitCI litROW r4 with
          | none => rw [h5] at h; simp at h
          | some p5 =>
            rcases p5 with ⟨c5, r5⟩
            rw [h5] at h
            simp only at h
            rcases pLitCI_sound _ _ _ _ h5 with ⟨he5, hl5⟩
            simp only [Option.some.injEq, Prod.mk.injEq] at h
            rcases h with ⟨_, hr⟩
            have hr6 : (pOptSCI r5).2.length ≤ r5.length := pOptSCI_length_le r5
            have hr7 : (pWsStar (pOptSCI r5).2).2.length ≤ (pOptSCI r5).2.length :=
              pWsStar_length_le _
            have hL1 : l.length = c1.length + r1.length := by rw [he1]; simp
            have hL2 : r1.length = c2.length + r2.length := by rw [he2]; simp
            have hL3 : r2.length = c3.length + r3.length := by rw [he3]; simp
            have hL4 : r3.length = c4.length + r4.length := by rw [he4]; simp
            have hL5 : r4.length = c5.length + r5.length := by rw [he5]; simp
            have hc1 : c1.length = litOFFSET.length := hl1
            have : litOFFSET.length = 6 := by decide
            subst hr
            omega

/-! ### The substitution and search functions built from the matchers -/

/-- Emission function of `re.sub(r'SELECT\s+TOP\s+\d+\s*', 'SELECT ', sql)`. -/
def mSelTopSub (l : List Char) : Option (List Char × List Char) :=
  match matchSelectTopNum l with
  | none => none
  | some (_, _, r) => some (litSELECTsp, (pWsStar r).2)

/-- Payload function for `re.search(r'SELECT\s+TOP\s+(\d+)', sql)`. -/
def mSelTopFind (l : List Char) : Option (List Char) :=
  match matchSelectTopNum l with
  | none => none
  | some (_, d, _) => some d

/-- Emission function of the `OFFSET` substitution (`app.py` lines 89-94):
the matched group followed by ` FETCH NEXT {n} ROWS ONLY `. -/
def mOffSub (n : Nat) (l : List Char) : Option (List Char × List Char) :=
  match matchOffsetClause l with
  | none => none
  | some (g, r) => some (g ++ litSpFETCHNEXTsp ++ natChars n ++ litSpROWSONLYsp, r)

/-- Emission function of the `ORDER BY` substitution (`app.py` lines 99-104):
the matched group followed by ` OFFSET 0 ROWS FETCH NEXT {n} ROWS ONLY`. -/
def mOrdSub (n : Nat) (l : List Char) : Option (List Char × List Char) :=
  match matchOrderByClause l with
  | none => none
  | some (g, r) => some (g ++ litSpOFFSET0sp ++ natChars n ++ litSpROWSONLY, r)

theorem mSelTopSub_shrinks : Shrinks mSelTopSub := by
  intro l e r h
  unfold mSelTopSub at h
  cases hm : matchSelectTopNum l with
  | none => rw [hm] at h; simp at h
  | some v =>
    rcases v with ⟨co, d, r0⟩
    rw [hm] at h
    simp only [Option.some.injEq, Prod.mk.injEq] at h
    rcases matchSelectTopNum_sound hm with ⟨he, hpos⟩
    have h1 : (pWsStar r0).2.length ≤ r0.length := pWsStar_length_le r0
    have h2 : l.length = co.length + r0.length := by rw [he]; simp
    rw [← h.2]
    omega

theorem mOffSub_shrinks (n : Nat) : Shrinks (mOffSub n) := by
  intro l e r h
  unfold mOffSub at h
  cases hm : matchOffsetClause l with
  | none => rw [hm] at h; simp at h
  | some v =>
    rcases v with ⟨g, r0⟩
    rw [hm] at h
    simp only [Option.some.injEq, Prod.mk.injEq] at h
    have := matchOffsetClause_sound hm
    rw [← h.2]
    omega

theorem mSelTopSub_none {l : List Char} (h : pLitCI litSELECT l = none) : mSelTopSub l = none := by
  unfold mSelTopSub
  rw [matchSelectTopNum_none h]

theorem mSelTopFind_none {l : List Char} (h : pLitCI litSELECT l = none) :
    mSelTopFind l = none := by
  unfold mSelTopFind
  rw [matchSelectTopNum_none h]

theorem mOffSub_none {n : Nat} {l : List Char} (h : pLitCI litOFFSET l = none) :
    mOffSub n l = none := by
  unfold mOffSub
  rw [matchOffsetClause_none h]

def subSelectTop (l : List Char) : List Char := scanSub mSelTopSub l

def subOffsetFetch (n : Nat) (l : List Char) : List Char := scanSub (mOffSub n) l

def subOrderByOffset (n : Nat) (l : List Char) : List Char := scanSub (mOrdSub n) l

def searchSelectTopNum (l : List Char) : Option (List Char) := scanFind mSelTopFind l

def searchFetchNextNum (l : List Char) : Option (List Char) := scanFind matchFetchNextNum l

/-- `re.sub(r'\bTOP\s+\w+\b', '', sql)`: the boolean argument carries whether
the previous character was a word character (the leading `\b` check); the
trailing `\b` is implied by the maximal `\w+`. -/
def subTopWordF : Nat → Bool → List Char → List Char
  | 0, _, l => l
  | _ + 1, _, [] => []
  | fuel + 1, prevWord, c :: t =>
    if prevWord then c :: subTopWordF fuel (isWordChar c) t
    else
      match matchTopWord (c :: t) with
      | some (_, r) => subTopWordF fuel true r
      | none => c :: subTopWordF fuel (isWordChar c) t

def subTopWord (l : List Char) : List Char := subTopWordF l.length false l

/-! ### `app.py`: dialect validation -/

/-- `app.py` lines 67-110: `fix_top_offset_conflict`. -/
def fix_top_offset_conflict (sql : List Char) : List Char :=
  match searchSelectTopNum sql with
  | none => stripL (subTopWord sql)
  | some d =>
    let top_value := parseDigits d
    let sql_without_top := subSelectTop sql
    let sql2 :=
      if hasSub (upperL sql_without_top) litFETCHNEXT then sql_without_top
      else if hasSub (upperL sql_without_top) litOFFSET then
        subOffsetFetch top_value sql_without_top
      else if hasSub (upperL sql_without_top) litORDERBY then
        subOrderByOffset top_value sql_without_top
      else sql_without_top ++ litOrderTail ++ natChars top_value ++ litSpROWSONLY
    stripL sql2

def limitErrorMessage : List Char :=
  ("SQL Server Error: LIMIT is not valid SQL Server syntax. " ++
    "Use TOP clause or ORDER BY ... OFFSET ... FETCH NEXT instead.").data

/-- `app.py` lines 46-65: `validate_sql_server_query`.  The raised
`ValueError` is modelled as `Except.error`. -/
def validate_sql_server_query (sql : List Char) : Except (List Char) (List Char) :=
  let sql_upper := upperL sql
  let sql1 :=
    if hasSub sql_upper litTOP && hasSub sql_upper litOFFSET then fix_top_offset_conflict sql
    else sql
  if hasSub sql_upper litLIMIT && !hasSub sql_upper litUPLOADED then
    Except.error limitErrorMessage
  else Except.ok sql1

/-! ### `app.py`: large-dataset detection -/

def allDataKeywords : List (List Char) :=
  ["all rows".data, "all data".data, "all records".data, "everything".data,
    "complete dataset".data, "entire table".data, "full table".data]

def litfirst : List Char := "first".data
def littop : List Char := "top".data
def litlimit : List Char := "limit".data
def litshow : List Char := "show".data
def litrows : List Char := "rows".data
def litrecords : List Char := "records".data
def litentries : List Char := "entries".data

/-- Head match of `(?:first|top|limit|show)\s+(\d+)` on lowercased text. -/
def mLimitP1 (l : List Char) : Option (List Char) :=
  let kw :=
    match pLit litfirst l with
    | some v => some v
    | none =>
      match pLit littop l with
      | some v => some v
      | none =>
        match pLit litlimit l with
        | some v => some v
        | none => pLit litshow l
  match kw with
  | none => none
  | some (_, r1) =>
    match pWs1 r1 with
    | none => none
    | some (_, r2) =>
      match pDigits1 r2 with
      | none => none
      | some (d, _) => some d

/-- Head match of `(\d+)\s+(?:rows|records|entries)` on lowercased text. -/
def mLimitP2 (l : List Char) : Option (List Char) :=
  match pDigits1 l with
  | none => none
  | some (d, r1) =>
    match pWs1 r1 with
    | none => none
    | some (_, r2) =>
      match pLit litrows r2 with
      | some _ => some d
      | none =>
        match pLit litrecords r2 with
        | some _ => some d
        | none =>
          match pLit litentries r2 with
          | some _ => some d
          | none => none

/-- Head match of `limit\s+(\d+)` on lowercased text. -/
def mLimitP3 (l : List Char) : Option (List Char) :=
  match pLit litlimit l with
  | none => none
  | some (_, r1) =>
    match pWs1 r1 with
    | none => none
    | some (_, r2) =>
      match pDigits1 r2 with
      | none => none
      | some (d, _) => some d

/-- `app.py` lines 427-441: the custom-limit extraction loop
(the three patterns are tried in order, first search hit wins). -/
def extractCustomLimit (question_lower : List Char) : Option Nat :=
  match scanFind mLimitP1 question_lower with
  | some d => some (parseDigits d)
  | none =>
    match scanFind mLimitP2 question_lower with
    | some d => some (parseDigits d)
    | none =>
      match scanFind mLimitP3 question_lower with
      | some d => some (parseDigits d)
      | none => none

/-- `app.py` lines 416-467: `detect_large_dataset_request`.
Returns `(is_large, final_limit, timeout)`; `final_limit = none` encodes
Python `None` ("no limit"); a zero extracted limit is falsy in Python and
falls through to the default branch. -/
def detect_large_dataset_request (question : List Char) : Bool × Option Nat × Nat :=
  let question_lower := lowerL question
  let wants_all := allDataKeywords.any fun kw => hasSub question_lower kw
  let custom_limit := extractCustomLimit question_lower
  let is_large :=
    wants_all || (match custom_limit with | some n => decide (n > 1000) | none => false)
  if wants_all then (is_large, none, 300)
  else
    match custom_limit with
    | some n =>
      if n ≠ 0 then
        (is_large, some n,
          if n > 10000 then 180 else if n > 5000 then 120 else if n > 1000 then 60 else 30)
      else (is_large, some 1000, 30)
    | none => (is_large, some 1000, 30)

/-! ### `sql_server_service.py`: the pure stages of `execute_query` -/

/-- `sql_server_service.py` lines 153-188: the automatic TOP-injection stage
of `execute_query`.  `custom_limit = none` encodes Python `None`.  Note the
replacement targets the exact uppercase substring `"SELECT"`. -/
def execute_query_auto_limit (query : List Char) (custom_limit : Option Int) : List Char :=
  let query_upper := stripL (upperL query)
  let has_offset := hasSub query_upper litOFFSET
  let has_top := hasSub query_upper litTOP
  let has_fetch_next := hasSub query_upper litFETCHNEXT || hasSub query_upper litFETCHFIRST
  let is_select := hasSub query_upper litSELECT
  let is_special := hasSub query_upper litCOUNTP || hasSub query_upper litDESCRIBE
  let has_pagination := has_offset || has_fetch_next
  match custom_limit with
  | some cl =>
    if cl > 0 then
      if !has_top && !has_pagination && is_select && !is_special then
        replaceFirst query litSELECT (litSELECTTOPsp ++ intChars cl)
      else query
    else if !has_top && !has_pagination && is_select && !is_special then
      replaceFirst query litSELECT (litSELECTTOPsp ++ intChars cl)
    else query
  | none =>
    if !has_top && !has_pagination && is_select && !is_special then
      let safety_limit : Nat :=
        if hasSub query_upper litDISTINCT || hasSub query_upper litGROUPBY then 5000 else 10000
      replaceFirst query litSELECT (litSELECTTOPsp ++ natChars safety_limit)
    else query

/-- `sql_server_service.py` lines 267-272: TTL choice for the result cache. -/
def execute_query_cache_ttl (query_upper : List Char) : Nat :=
  if hasSub query_upper litCOUNTP || hasSub query_upper litSUMP then 600
  else if hasSub query_upper litDISTINCT then 900
  else 300

/-- `sql_server_service.py` lines 143-145 and 264-275: whether the result is
offered to the result cache (`some ttl`) or not (`none`).  The guard is
`is_select_query and result and len(result) <= 5000`. -/
def execute_query_cache_put {α : Type} (query : List Char) (result : List α) : Option Nat :=
  let query_upper := stripL (upperL query)
  let is_select_query := startsWithL query_upper litSELECT
  if is_select_query && !result.isEmpty && decide (result.length ≤ 5000) then
    some (execute_query_cache_ttl query_upper)
  else none

/-! ### `cache_service.py`: the shipped cache -/

/-- `cache_service.py` lines 6-8: `get_query_result` of the shipped
`CacheService` stub always returns `None`. -/
def CacheService.get_query_result (α : Type) (query : List Char) (limit : Option Int) :
    Option α :=
  none

/-- `cache_service.py` lines 10-12: `set_query_result` of the shipped
`CacheService` stub is a no-op. -/
def CacheService.set_query_result (α : Type) (query : List Char) (result : α)
    (limit : Option Int) (ttl : Option Nat) : Unit :=
  ()

/-- `cachePut(k, v, ttl)` immediately followed by `cacheGet(k)` against the
shipped `CacheService`. -/
def cache_put_then_get (α : Type) (k : List Char) (v : α) (ttl : Nat) : Option α :=
  let _ := CacheService.set_query_result α k v none (some ttl)
  CacheService.get_query_result α k none

/-! ### `sql_server_service.py`: the connection pool -/

/-- A pooled pyodbc connection; the booleans model whether its successive
`close()` calls succeed (`close_ok` the close in the full-queue branch of
`return_connection`, `close_retry_ok` the close in its bare `except`
handler). -/
structure PoolConn where
  id : Nat
  close_ok : Bool
  close_retry_ok : Bool

/-- `sql_server_service.py` lines 21-72: `ConnectionPool`.  `pool` is the
idle queue (front = next to be handed out), `max_connections` the queue's
`maxsize`. -/
structure ConnectionPool where
  max_connections : Nat
  pool : List PoolConn

/-- `Queue.full()`: true only when `0 < maxsize ≤ qsize`; a `Queue`
constructed with `maxsize = 0` is unbounded and never full. -/
def ConnectionPool.isFull (p : ConnectionPool) : Bool :=
  decide (0 < p.max_connections) && decide (p.max_connections ≤ p.pool.length)

/-- `ConnectionPool._initialize_pool` (lines 32-39): `max_connections`
connection attempts; `connect_ok` says which succeed, failures are logged
and skipped. -/
def ConnectionPool.initialize_pool (max_connections : Nat) (connect_ok : List Bool) :
    ConnectionPool :=
  { max_connections
    pool := ((List.range max_connections).filter fun i => connect_ok.getD i false).map
      fun i => { id := i, close_ok := true, close_retry_ok := true } }

/-- `ConnectionPool.get_connection` (lines 41-62): pop from the queue (an
empty queue times out and falls back to a fresh ad-hoc connection); a popped
connection whose probe fails is closed and replaced by a fresh one. -/
def ConnectionPool.get_connection (p : ConnectionPool) (probe_ok : Bool) (fresh : PoolConn) :
    PoolConn × ConnectionPool :=
  match p.pool with
  | [] => (fresh, p)
  | c :: rest =>
    if probe_ok then (c, { p with pool := rest }) else (fresh, { p with pool := rest })

/-- `ConnectionPool.return_connection` (lines 64-72): enqueue when not full,
else close; a failing close is retried by the bare `except` handler, whose
own failure propagates to the caller (`Except.error`). -/
def ConnectionPool.return_connection (p : ConnectionPool) (conn : PoolConn) :
    Except Unit ConnectionPool :=
  if p.isFull = false then Except.ok { p with pool := p.pool ++ [conn] }
  else if conn.close_ok then Except.ok p
  else if conn.close_retry_ok then Except.ok p
  else Except.error ()

inductive PoolOp where
  | lease (probe_ok : Bool) (fresh : PoolConn)
  | release (conn : PoolConn)

/-- One pool interaction; a `release` whose close chain raises leaves the
queue as `return_connection` left it (nothing was enqueued). -/
def poolStep (p : ConnectionPool) : PoolOp → ConnectionPool
  | .lease ok f => (p.get_connection ok f).2
  | .release c =>
    match p.return_connection c with
    | .ok q => q
    | .error _ => p

def runPool (ops : List PoolOp) (p : ConnectionPool) : ConnectionPool :=
  ops.foldl poolStep p

/-- The `/query` handler flow of `app.py` (lines 874-898):
`clean_sql_query` validates via `validate_sql_server_query`; only on
success is `execute_query` reached, which applies the automatic limit and
leases a connection.  The last component counts leased connections. -/
def query_pipeline (p : ConnectionPool) (sql : List Char) (custom_limit : Option Int)
    (probe_ok : Bool) (fresh : PoolConn) :
    Except (List Char) (List Char) × ConnectionPool × Nat :=
  match validate_sql_server_query sql with
  | .error e => (.error e, p, 0)
  | .ok q =>
    let q2 := execute_query_auto_limit q custom_limit
    let s := p.get_connection probe_ok fresh
    let p2 :=
      match s.2.return_connection s.1 with
      | .ok q3 => q3
      | .error _ => s.2
    (.ok q2, p2, 1)

/-! ### Pool invariant lemmas -/

theorem list_isEmpty_false_iff {α : Type} (l : List α) : l.isEmpty = false ↔ l ≠ [] := by
  cases l <;> simp

theorem get_connection_max (p : ConnectionPool) (ok : Bool) (f : PoolConn) :
    (p.get_connection ok f).2.max_connections = p.max_connections := by
  rcases p with ⟨m, pool⟩
  cases pool with
  | nil => rfl
  | cons c rest => cases ok <;> simp [ConnectionPool.get_connection]

theorem get_connection_len (p : ConnectionPool) (ok : Bool) (f : PoolConn) :
    (p.get_connection ok f).2.pool.length ≤ p.pool.length := by
  rcases p with ⟨m, pool⟩
  cases pool with
  | nil => exact le_refl _
  | cons c rest =>
    cases ok <;> simp [ConnectionPool.get_connection] <;> omega

theorem return_connection_not_full {p : ConnectionPool} (c : PoolConn)
    (hf : p.isFull = false) :
    p.return_connection c = Except.ok { p with pool := p.pool ++ [c] } := by
  unfold ConnectionPool.return_connection
  rw [if_pos hf]

theorem return_connection_full {p : ConnectionPool} (c : PoolConn) (hf : p.isFull = true) :
    p.return_connection c = Except.ok p ∨ p.return_connection c = Except.error () := by
  unfold ConnectionPool.return_connection
  rw [if_neg (by simp [hf])]
  by_cases h1 : c.close_ok = true
  · left
    rw [if_pos h1]
  · rw [if_neg h1]
    by_cases h2 : c.close_retry_ok = true
    · left
      rw [if_pos h2]
    · right
      rw [if_neg h2]

theorem poolStep_max (p : ConnectionPool) (op : PoolOp) :
    (poolStep p op).max_connections = p.max_connections := by
  cases op with
  | lease ok f =>
    simp only [poolStep]
    exact get_connection_max p ok f
  | release c =>
    simp only [poolStep]
    by_cases hf : p.isFull = false
    · rw [return_connection_not_full c hf]
    · have hf' : p.isFull = true := by
        cases hb : p.isFull
        · exact absurd hb hf
        · rfl
      rcases return_connection_full c hf' with hr | hr
      · rw [hr]
      · rw [hr]

theorem poolStep_bound (p : ConnectionPool) (op : PoolOp) (h0 : 0 < p.max_connections)
    (h : p.pool.length ≤ p.max_connections) :
    (poolStep p op).pool.length ≤ p.max_connections := by
  cases op with
  | lease ok f =>
    simp only [poolStep]
    exact le_trans (get_connection_len p ok f) h
  | release c =>
    simp only [poolStep]
    by_cases hf : p.isFull = false
    · rw [return_connection_not_full c hf]
      have hlt : p.pool.length < p.max_connections := by
        by_contra hge
        have htrue : p.isFull = true := by
          simp only [ConnectionPool.isFull, Bool.and_eq_true, decide_eq_true_eq]
          exact ⟨h0, by omega⟩
        rw [htrue] at hf
        exact Bool.noConfusion hf
      show (p.pool ++ [c]).length ≤ p.max_connections
      simp only [List.length_append, List.length_cons, List.length_nil]
      omega
    · have hf' : p.isFull = true := by
        cases hb : p.isFull
        · exact absurd hb hf
        · rfl
      rcases return_connection_full c hf' with hr | hr
      · rw [hr]
        exact h
      · rw [hr]
        exact h

theorem runPool_bound (maxC : Nat) (h0 : 0 < maxC) :
    ∀ (ops : List PoolOp) (p : ConnectionPool), p.max_connections = maxC →
      p.pool.length ≤ maxC → (runPool ops p).pool.length ≤ maxC := by
  intro ops
  induction ops with
  | nil => intro p _ h; exact h
  | cons op rest ih =>
    intro p hm h
    have hm' : (poolStep p op).max_connections = maxC := by rw [poolStep_max, hm]
    have h' : (poolStep p op).pool.length ≤ maxC := by
      have := poolStep_bound p op (by omega) (by omega)
      omega
    exact ih (poolStep p op) hm' h'

/-! ### Claim C2 — pooled capacity invariant -/

/-- C2 counterexample: a pool constructed with capacity 0 sits on an
unbounded `Queue` (Python treats `maxsize = 0` as infinite and `full()` is
then never true), so one ad-hoc lease followed by a release leaves one idle
connection, exceeding the capacity. -/
theorem C2_pool_capacity_counterexample :
    ¬ (runPool
        [PoolOp.lease true { id := 9, close_ok := true, close_retry_ok := true },
          PoolOp.release { id := 9, close_ok := true, close_retry_ok := true }]
        (ConnectionPool.initialize_pool 0 [])).pool.length ≤ 0 := by
  decide

/-- C2 (amended): for every pool constructed with nonzero capacity `N`,
after any sequence of `get_connection`/`return_connection` calls the idle
queue holds at most `N` connections: `return_connection` enqueues only when
the queue is below capacity and closes the connection otherwise. -/
theorem C2_pool_capacity_invariant (maxC : Nat) (connect_ok : List Bool) (ops : List PoolOp)
    (h : 0 < maxC) :
    (runPool ops (ConnectionPool.initialize_pool maxC connect_ok)).pool.length ≤ maxC := by
  apply runPool_bound maxC h ops _ rfl
  unfold ConnectionPool.initialize_pool
  simp only [List.length_map]
  exact le_trans (List.length_filter_le _ _) (by simp)

theorem C2_pool_capacity_invariant_witness :
    0 < 2 ∧
    (runPool
        [PoolOp.lease true { id := 7, close_ok := true, close_retry_ok := true },
          PoolOp.release { id := 7, close_ok := true, close_retry_ok := true },
          PoolOp.release { id := 8, close_ok := true, close_retry_ok := true }]
        (ConnectionPool.initialize_pool 2 [true, true])).pool.length ≤ 2 :=
  ⟨by decide, C2_pool_capacity_invariant 2 [true, true] _ (by decide)⟩

/-! ### Claim C3 — cache round trip -/

/-- C3 counterexample: against the shipped `CacheService`, a put of
`("k", "v", 60)` followed immediately by a get of `"k"` does not return
`"v"`: the stub always misses. -/
theorem C3_cache_round_trip_counterexample :
    ¬ cache_put_then_get (List Char) "k".data "v".data 60 = some "v".data := by
  intro h
  simp [cache_put_then_get, CacheService.get_query_result] at h

/-- C3 (amended): the cache implementation shipped in the code is a
disabled stub: `set_query_result` stores nothing and `get_query_result`
always misses, so a put followed by a get returns a miss both immediately
and after the TTL has elapsed. -/
theorem C3_cache_stub_always_misses (α : Type) (k : List Char) (v : α) (ttl : Nat) :
    cache_put_then_get α k v ttl = none := rfl

/-! ### Claim C7 — cache population policy -/

theorem execute_query_cache_put_eq (α : Type) (query : List Char) (result : List α) :
    execute_query_cache_put query result =
      if startsWithL (stripL (upperL query)) litSELECT && !result.isEmpty &&
          decide (result.length ≤ 5000) then
        some (execute_query_cache_ttl (stripL (upperL query)))
      else none := rfl

/-- C7 counterexample: a SELECT-shaped query whose result is empty (and so
has at most 5000 rows) is not offered to the cache: the `result` truthiness
test rejects empty results. -/
theorem C7_cache_policy_counterexample :
    execute_query_cache_put "SELECT 1".data ([] : List Nat) = none ∧
    startsWithL (stripL (upperL "SELECT 1".data)) litSELECT = true ∧
    ([] : List Nat).length ≤ 5000 :=
  ⟨by decide, by decide, by decide⟩

/-- C7 (amended): a result is offered to the cache iff the query is
SELECT-shaped and the result is nonempty with at most 5000 rows; the TTL
is 600s for aggregate queries (`COUNT(`/`SUM(`), 900s for `DISTINCT`
without an aggregate, and 300s otherwise. -/
theorem C7_cache_policy (α : Type) (query : List Char) (result : List α) :
    ((execute_query_cache_put query result).isSome = true ↔
      (startsWithL (stripL (upperL query)) litSELECT = true ∧ result ≠ [] ∧
        result.length ≤ 5000)) ∧
    (∀ t, execute_query_cache_put query result = some t →
      ((hasSub (stripL (upperL query)) litCOUNTP = true ∨
          hasSub (stripL (upperL query)) litSUMP = true) → t = 600) ∧
      (hasSub (stripL (upperL query)) litCOUNTP = false →
        hasSub (stripL (upperL query)) litSUMP = false →
        hasSub (stripL (upperL query)) litDISTINCT = true → t = 900) ∧
      (hasSub (stripL (upperL query)) litCOUNTP = false →
        hasSub (stripL (upperL query)) litSUMP = false →
        hasSub (stripL (upperL query)) litDISTINCT = false → t = 300)) := by
  rw [execute_query_cache_put_eq]
  constructor
  · by_cases hg : (startsWithL (stripL (upperL query)) litSELECT && !result.isEmpty &&
        decide (result.length ≤ 5000)) = true
    · rw [if_pos hg]
      simp only [Bool.and_eq_true, Bool.not_eq_true', decide_eq_true_eq] at hg
      simp only [Option.isSome_some, true_iff]
      exact ⟨hg.1.1, (list_isEmpty_false_iff result).mp hg.1.2, hg.2⟩
    · rw [if_neg hg]
      simp only [Option.isSome_none, Bool.false_eq_true, false_iff]
      intro hc
      apply hg
      simp only [Bool.and_eq_true, Bool.not_eq_true', decide_eq_true_eq]
      exact ⟨⟨hc.1, (list_isEmpty_false_iff result).mpr hc.2.1⟩, hc.2.2⟩
  · intro t ht
    have htv : t = execute_query_cache_ttl (stripL (upperL query)) := by
      by_cases hg : (startsWithL (stripL (upperL query)) litSELECT && !result.isEmpty &&
          decide (result.length ≤ 5000)) = true
      · rw [if_pos hg] at ht
        injection ht with ht
        exact ht.symm
      · rw [if_neg hg] at ht
        cases ht
    subst htv
    refine ⟨?_, ?_, ?_⟩
    · intro hagg
      rcases hagg with hc | hs
      · simp [execute_query_cache_ttl, hc]
      · simp [execute_query_cache_ttl, hs]
    · intro hc hs hd
      simp [execute_query_cache_ttl, hc, hs, hd]
    · intro hc hs hd
      simp [execute_query_cache_ttl, hc, hs, hd]

theorem C7_cache_policy_witness :
    (execute_query_cache_put "SELECT DISTINCT a FROM t".data [0, 1]).isSome = true ∧
    (execute_query_cache_put "SELECT DISTINCT a FROM t".data ([0, 1] : List Nat) = some 900) :=
  ⟨(C7_cache_policy Nat "SELECT DISTINCT a FROM t".data [0, 1]).1.mpr
      ⟨by decide, by decide, by decide⟩,
    by decide⟩

/-! ### Claim C9 — release never raises -/

/-- C9 counterexample: returning a connection to a full pool closes it; if
that close fails, the bare `except` handler closes again, and if that close
also fails the exception propagates to the caller. -/
theorem C9_release_raises_counterexample :
    ConnectionPool.return_connection
      { max_connections := 1, pool := [{ id := 0, close_ok := true, close_retry_ok := true }] }
      { id := 1, close_ok := false, close_retry_ok := false } = Except.error () := rfl

/-- C9 (amended): `return_connection` raises only when the queue is full
and both the close and the retried close fail; in every other case —
including a single close failure, which the handler swallows — it returns
normally. -/
theorem C9_release_soundness (p : ConnectionPool) (c : PoolConn)
    (h : p.isFull = false ∨ c.close_ok = true ∨ c.close_retry_ok = true) :
    ∃ q, p.return_connection c = Except.ok q := by
  unfold ConnectionPool.return_connection
  by_cases hf : p.isFull = false
  · exact ⟨{ p with pool := p.pool ++ [c] }, by rw [if_pos hf]⟩
  · rw [if_neg hf]
    by_cases h1 : c.close_ok = true
    · exact ⟨p, by rw [if_pos h1]⟩
    · rw [if_neg h1]
      rcases h with h | h | h
      · exact absurd h hf
      · exact absurd h h1
      · exact ⟨p, by rw [if_pos h]⟩

theorem C9_release_soundness_witness :
    (({ max_connections := 5, pool := [] } : ConnectionPool).isFull = false ∨
      ({ id := 0, close_ok := false, close_retry_ok := false } : PoolConn).close_ok = true ∨
      ({ id := 0, close_ok := false, close_retry_ok := false } : PoolConn).close_retry_ok = true) ∧
    ∃ q, ConnectionPool.return_connection { max_connections := 5, pool := [] }
        { id := 0, close_ok := false, close_retry_ok := false } = Except.ok q :=
  ⟨Or.inl (by decide), C9_release_soundness _ _ (Or.inl (by decide))⟩

/-! ### Claim C8 — validation is the identity without a TOP/OFFSET conflict -/

/-- C8: a query lacking a TOP clause or lacking an OFFSET clause, and
containing no illegal foreign LIMIT, passes validation unchanged; in
particular an already-rewritten query (offset/fetch only) and a query with
only a TOP clause are no-ops. -/
theorem C8_validate_no_conflict_unchanged (sql : List Char)
    (h1 : (hasSub (upperL sql) litTOP && hasSub (upperL sql) litOFFSET) = false)
    (h2 : (hasSub (upperL sql) litLIMIT && !hasSub (upperL sql) litUPLOADED) = false) :
    validate_sql_server_query sql = Except.ok sql := by
  simp [validate_sql_server_query, h1, h2]

theorem C8_validate_no_conflict_unchanged_witness :
    (hasSub (upperL "SELECT * FROM t ORDER BY id OFFSET 10 ROWS FETCH NEXT 100 ROWS ONLY".data)
        litTOP &&
      hasSub (upperL "SELECT * FROM t ORDER BY id OFFSET 10 ROWS FETCH NEXT 100 ROWS ONLY".data)
        litOFFSET) = false ∧
    validate_sql_server_query
        "SELECT * FROM t ORDER BY id OFFSET 10 ROWS FETCH NEXT 100 ROWS ONLY".data =
      Except.ok "SELECT * FROM t ORDER BY id OFFSET 10 ROWS FETCH NEXT 100 ROWS ONLY".data :=
  ⟨by decide,
    C8_validate_no_conflict_unchanged _ (by decide) (by decide)⟩

/-! ### Claim C10 — only the uppercase SELECT is rewritten -/

/-- C10: the automatic limit injection rewrites by replacing the first
occurrence of the exact uppercase `"SELECT"`; a query that spells the
keyword only in lowercase passes the case-insensitive shape checks but is
handed to the backend unmodified, for every limit hint. -/
theorem C10_lowercase_select_not_rewritten (query : List Char) (custom_limit : Option Int)
    (hup : hasSub query litSELECT = false)
    (hci : hasSub (stripL (upperL query)) litSELECT = true) :
    execute_query_auto_limit query custom_limit = query := by
  have hrep : ∀ rep, replaceFirst query litSELECT rep = query :=
    fun rep => replaceFirst_no_occ rep hup
  unfold execute_query_auto_limit
  cases custom_limit with
  | some cl =>
    dsimp only
    split
    · split
      · exact hrep _
      · rfl
    · split
      · exact hrep _
      · rfl
  | none =>
    dsimp only
    split
    · exact hrep _
    · rfl

theorem C10_lowercase_select_not_rewritten_witness :
    hasSub "select * from t".data litSELECT = false ∧
    hasSub (stripL (upperL "select * from t".data)) litSELECT = true ∧
    execute_query_auto_limit "select * from t".data (some 1000) = "select * from t".data :=
  ⟨by decide, by decide,
    C10_lowercase_select_not_rewritten _ _ (by decide) (by decide)⟩

/-! ### Claim C5 — foreign LIMIT handling -/

/-- C5 counterexample: a query referencing an uploaded-prefixed table is
not returned unchanged when it also contains both TOP and OFFSET: the
conflict rewrite fires before the LIMIT tolerance check. -/
theorem C5_limit_validation_counterexample :
    validate_sql_server_query
        "SELECT TOP 3 * FROM UPLOADED_T ORDER BY ID OFFSET 2 ROWS LIMIT 4".data =
      Except.ok
        "SELECT * FROM UPLOADED_T ORDER BY ID OFFSET 2 ROWS FETCH NEXT 3 ROWS ONLY LIMIT 4".data ∧
    "SELECT * FROM UPLOADED_T ORDER BY ID OFFSET 2 ROWS FETCH NEXT 3 ROWS ONLY LIMIT 4".data ≠
      "SELECT TOP 3 * FROM UPLOADED_T ORDER BY ID OFFSET 2 ROWS LIMIT 4".data :=
  ⟨rfl, by decide⟩

/-- C5 (amended): a query containing LIMIT and no uploaded-table marker is
rejected with the LIMIT error before any connection is leased (the
pipeline performs zero leases and leaves the pool untouched); a query
containing LIMIT that references an uploaded-prefixed table is tolerated
and returned unchanged, provided it does not also contain both TOP and
OFFSET (in which case the conflict rewrite fires first). -/
theorem C5_limit_validation (p : ConnectionPool) (cl : Option Int) (probe : Bool)
    (fresh : PoolConn) (s1 s2 : List Char)
    (h1 : hasSub (upperL s1) litLIMIT = true)
    (h2 : hasSub (upperL s1) litUPLOADED = false)
    (h3 : hasSub (upperL s2) litLIMIT = true)
    (h4 : hasSub (upperL s2) litUPLOADED = true)
    (h5 : (hasSub (upperL s2) litTOP && hasSub (upperL s2) litOFFSET) = false) :
    validate_sql_server_query s1 = Except.error limitErrorMessage ∧
    query_pipeline p s1 cl probe fresh = (Except.error limitErrorMessage, p, 0) ∧
    validate_sql_server_query s2 = Except.ok s2 := by
  have hv1 : validate_sql_server_query s1 = Except.error limitErrorMessage := by
    simp [validate_sql_server_query, h1, h2]
  refine ⟨hv1, ?_, ?_⟩
  · simp [query_pipeline, hv1]
  · simp [validate_sql_server_query, h3, h4, h5]

theorem C5_limit_validation_witness :
    hasSub (upperL "SELECT * FROM t LIMIT 5".data) litLIMIT = true ∧
    hasSub (upperL "SELECT * FROM t LIMIT 5".data) litUPLOADED = false ∧
    hasSub (upperL "SELECT * FROM uploaded_data LIMIT 5".data) litLIMIT = true ∧
    hasSub (upperL "SELECT * FROM uploaded_data LIMIT 5".data) litUPLOADED = true ∧
    validate_sql_server_query "SELECT * FROM t LIMIT 5".data =
      Except.error limitErrorMessage ∧
    query_pipeline { max_connections := 5, pool := [] } "SELECT * FROM t LIMIT 5".data none
        true { id := 0, close_ok := true, close_retry_ok := true } =
      (Except.error limitErrorMessage, { max_connections := 5, pool := [] }, 0) ∧
    validate_sql_server_query "SELECT * FROM uploaded_data LIMIT 5".data =
      Except.ok "SELECT * FROM uploaded_data LIMIT 5".data := by
  have h := C5_limit_validation { max_connections := 5, pool := [] } none true
    { id := 0, close_ok := true, close_retry_ok := true }
    "SELECT * FROM t LIMIT 5".data "SELECT * FROM uploaded_data LIMIT 5".data
    (by decide) (by decide) (by decide) (by decide) (by decide)
  exact ⟨by decide, by decide, by decide, by decide, h.1, h.2.1, h.2.2⟩

/-! ### Claim C4 — default limit of 1000 -/

/-- C4 counterexample: for a question with no explicit count and no
all-data keyword the default limit is 1000, but executing a SELECT query
that spells the keyword in lowercase injects nothing: the executed query
contains no TOP clause at all. -/
theorem C4_default_limit_counterexample :
    (allDataKeywords.any fun kw => hasSub (lowerL "give me the data".data) kw) = false ∧
    extractCustomLimit (lowerL "give me the data".data) = none ∧
    detect_large_dataset_request "give me the data".data = (false, some 1000, 30) ∧
    execute_query_auto_limit "select * from t".data (some 1000) = "select * from t".data ∧
    hasSub (upperL "select * from t".data) litTOP = false :=
  ⟨by decide, by decide, by decide, by decide, by decide⟩

/-- C4 (amended): with no all-data keyword and no extractable explicit
count, `detect_large_dataset_request` chooses the default limit 1000 (with
a 30s timeout); and executing with that limit any SELECT query that has no
count-style or pagination clause, is not metadata-only, and contains the
uppercase keyword `"SELECT"`, injects a `TOP 1000` clause at the first
occurrence of `"SELECT"`. -/
theorem C4_default_limit_1000 (question query : List Char)
    (hall : (allDataKeywords.any fun kw => hasSub (lowerL question) kw) = false)
    (hnum : extractCustomLimit (lowerL question) = none)
    (htop : hasSub (stripL (upperL query)) litTOP = false)
    (hoff : hasSub (stripL (upperL query)) litOFFSET = false)
    (hfn : hasSub (stripL (upperL query)) litFETCHNEXT = false)
    (hff : hasSub (stripL (upperL query)) litFETCHFIRST = false)
    (hsel : hasSub (stripL (upperL query)) litSELECT = true)
    (hcnt : hasSub (stripL (upperL query)) litCOUNTP = false)
    (hdesc : hasSub (stripL (upperL query)) litDESCRIBE = false)
    (hup : hasSub query litSELECT = true) :
    detect_large_dataset_request question = (false, some 1000, 30) ∧
    ∃ pre suf, query = pre ++ litSELECT ++ suf ∧
      execute_query_auto_limit query (some 1000) = pre ++ "SELECT TOP 1000".data ++ suf := by
  constructor
  · simp [detect_large_dataset_request, hall, hnum]
  · have hinj : execute_query_auto_limit query (some 1000) =
        replaceFirst query litSELECT (litSELECTTOPsp ++ intChars 1000) := by
      unfold execute_query_auto_limit
      dsimp only
      rw [if_pos (by norm_num : (1000 : Int) > 0),
        if_pos (by simp [htop, hoff, hfn, hff, hsel, hcnt, hdesc])]
    rcases replaceFirst_decomp (litSELECTTOPsp ++ intChars 1000) hup (by decide) with
      ⟨pre, suf, hdec, hrep⟩
    refine ⟨pre, suf, hdec, ?_⟩
    rw [hinj, hrep]
    have he : litSELECTTOPsp ++ intChars 1000 = "SELECT TOP 1000".data := by decide
    rw [he]

theorem C4_default_limit_1000_witness :
    detect_large_dataset_request "list the items".data = (false, some 1000, 30) ∧
    ∃ pre suf, "SELECT * FROM das.t".data = pre ++ litSELECT ++ suf ∧
      execute_query_auto_limit "SELECT * FROM das.t".data (some 1000) =
        pre ++ "SELECT TOP 1000".data ++ suf :=
  C4_default_limit_1000 "list the items".data "SELECT * FROM das.t".data
    (by decide) (by decide) (by decide) (by decide) (by decide) (by decide)
    (by decide) (by decide) (by decide) (by decide)

/-! ### Claim C6 — safety caps for limit hint "all" -/

/-- C6 counterexample: a lowercase SELECT query containing GROUP BY
satisfies every condition of the claim, yet no safety cap is injected:
the query passes through without any TOP clause. -/
theorem C6_safety_cap_counterexample :
    execute_query_auto_limit "select x from t group by x".data none =
      "select x from t group by x".data ∧
    hasSub (stripL (upperL "select x from t group by x".data)) litGROUPBY = true ∧
    hasSub (upperL "select x from t group by x".data) litTOP = false :=
  ⟨by decide, by decide, by decide⟩

/-- C6 (amended): for a SELECT query with limit hint "all"
(`custom_limit = none`), no count-style or pagination clause, not
metadata-only, and containing the uppercase keyword `"SELECT"`, a safety
cap is injected at the first `"SELECT"`: exactly 5000 rows when the query
contains `DISTINCT` or `GROUP BY`, exactly 10000 rows otherwise. -/
theorem C6_safety_cap (query : List Char)
    (htop : hasSub (stripL (upperL query)) litTOP = false)
    (hoff : hasSub (stripL (upperL query)) litOFFSET = false)
    (hfn : hasSub (stripL (upperL query)) litFETCHNEXT = false)
    (hff : hasSub (stripL (upperL query)) litFETCHFIRST = false)
    (hsel : hasSub (stripL (upperL query)) litSELECT = true)
    (hcnt : hasSub (stripL (upperL query)) litCOUNTP = false)
    (hdesc : hasSub (stripL (upperL query)) litDESCRIBE = false)
    (hup : hasSub query litSELECT = true) :
    ∃ pre suf, query = pre ++ litSELECT ++ suf ∧
      execute_query_auto_limit query none =
        pre ++ (litSELECTTOPsp ++ natChars
          (if hasSub (stripL (upperL query)) litDISTINCT ||
              hasSub (stripL (upperL query)) litGROUPBY then 5000 else 10000)) ++ suf := by
  have hinj : execute_query_auto_limit query none =
      replaceFirst query litSELECT (litSELECTTOPsp ++ natChars
        (if hasSub (stripL (upperL query)) litDISTINCT ||
            hasSub (stripL (upperL query)) litGROUPBY then 5000 else 10000)) := by
    unfold execute_query_auto_limit
    dsimp only
    rw [if_pos (by simp [htop, hoff, hfn, hff, hsel, hcnt, hdesc])]
  rcases replaceFirst_decomp (litSELECTTOPsp ++ natChars
      (if hasSub (stripL (upperL query)) litDISTINCT ||
          hasSub (stripL (upperL query)) litGROUPBY then 5000 else 10000)) hup (by decide) with
    ⟨pre, suf, hdec, hrep⟩
  exact ⟨pre, suf, hdec, by rw [hinj, hrep]⟩

theorem C6_safety_cap_witness :
    ∃ pre suf, "SELECT x FROM t GROUP BY x".data = pre ++ litSELECT ++ suf ∧
      execute_query_auto_limit "SELECT x FROM t GROUP BY x".data none =
        pre ++ (litSELECTTOPsp ++ natChars
          (if hasSub (stripL (upperL "SELECT x FROM t GROUP BY x".data)) litDISTINCT ||
              hasSub (stripL (upperL "SELECT x FROM t GROUP BY x".data)) litGROUPBY
            then 5000 else 10000)) ++ suf :=
  C6_safety_cap "SELECT x FROM t GROUP BY x".data
    (by decide) (by decide) (by decide) (by decide) (by decide) (by decide)
    (by decide) (by decide)

/-! ### Head-match application lemmas and positive matcher characterizations -/

theorem scanSub_match_some {m : List Char → Option (List Char × List Char)} (hm : Shrinks m)
    (hnil : m [] = none) {l e r : List Char} (h : m l = some (e, r)) :
    scanSub m l = e ++ scanSub m r := by
  cases l with
  | nil => rw [hnil] at h; cases h
  | cons c t => exact scanSub_cons_some hm h

theorem scanFind_match_some {β : Type} {m : List Char → Option β} (hnil : m [] = none)
    {l : List Char} {d : β} (h : m l = some d) : scanFind m l = some d := by
  cases l with
  | nil => rw [hnil] at h; cases h
  | cons c t => exact scanFind_cons_some h

theorem countOccCI_match_some {pat l : List Char} {v : List Char × List Char}
    (hnil : pLitCI pat [] = none) (h : pLitCI pat l = some v) :
    countOccCI pat l = 1 + countOccCI pat l.tail := by
  cases l with
  | nil => rw [hnil] at h; cases h
  | cons c t => exact countOccCI_cons_some h

theorem headNotB_append {p : Char → Bool} {l : List Char} (hne : l ≠ []) (b : List Char) :
    headNotB p (l ++ b) = headNotB p l := by
  cases l with
  | nil => exact absurd rfl hne
  | cons c t => rfl

/-- `s.strip()` of a string with a non-whitespace first character, a
non-whitespace last character and one trailing blank removes exactly that
blank. -/
theorem stripL_append_ws {l : List Char} (h1 : headNotB isWs l = true)
    (h2 : headNotB isWs l.reverse = true) : stripL (l ++ [' ']) = l := by
  cases l with
  | nil => rfl
  | cons c t =>
    unfold stripL
    have hd1 : (c :: t ++ [' ']).dropWhile isWs = c :: t ++ [' '] := by
      apply dropWhile_headNot
      simpa using h1
    rw [hd1]
    have hrev : (c :: t ++ [' ']).reverse = ' ' :: (c :: t).reverse := by
      simp
    rw [hrev]
    have hws : isWs ' ' = true := by decide
    simp only [List.dropWhile_cons, hws, if_true]
    rw [dropWhile_headNot h2, List.reverse_reverse]

theorem matchSelectTopNum_pos (dn b : List Char) (hdn : ∀ c ∈ dn, isDig c = true)
    (hne : dn ≠ []) (hb : headNotB isDig b = true) :
    matchSelectTopNum (litSELECT ++ ([' '] ++ (litTOP ++ ([' '] ++ (dn ++ b))))) =
      some (litSELECT ++ [' '] ++ litTOP ++ [' '] ++ dn, dn, b) := by
  have h1 : pLitCI litSELECT (litSELECT ++ ([' '] ++ (litTOP ++ ([' '] ++ (dn ++ b))))) =
      some (litSELECT, [' '] ++ (litTOP ++ ([' '] ++ (dn ++ b)))) :=
    pLitCI_of_upper _ _ _ (by decide)
  have h2 : pWs1 ([' '] ++ (litTOP ++ ([' '] ++ (dn ++ b)))) =
      some ([' '], litTOP ++ ([' '] ++ (dn ++ b))) :=
    pWs1_pos (by decide) (by decide) rfl
  have h3 : pLitCI litTOP (litTOP ++ ([' '] ++ (dn ++ b))) =
      some (litTOP, [' '] ++ (dn ++ b)) :=
    pLitCI_of_upper _ _ _ (by decide)
  have h4 : pWs1 ([' '] ++ (dn ++ b)) = some ([' '], dn ++ b) := by
    apply pWs1_pos (by decide) (by decide)
    rw [headNotB_append hne]
    exact headNotB_isWs_of_digits hdn hne
  have h5 : pDigits1 (dn ++ b) = some (dn, b) := pDigits1_pos hdn hne hb
  simp only [matchSelectTopNum, h1, h2, h3, h4, h5]

theorem mSelTopFind_pos (dn b : List Char) (hdn : ∀ c ∈ dn, isDig c = true)
    (hne : dn ≠ []) (hb : headNotB isDig b = true) :
    mSelTopFind (litSELECT ++ ([' '] ++ (litTOP ++ ([' '] ++ (dn ++ b))))) = some dn := by
  unfold mSelTopFind
  rw [matchSelectTopNum_pos dn b hdn hne hb]

theorem mSelTopSub_pos (dn b2 : List Char) (hdn : ∀ c ∈ dn, isDig c = true)
    (hne : dn ≠ []) (hb2 : headNotB isWs b2 = true) :
    mSelTopSub (litSELECT ++ ([' '] ++ (litTOP ++ ([' '] ++ (dn ++ ([' '] ++ b2)))))) =
      some (litSELECTsp, b2) := by
  unfold mSelTopSub
  rw [matchSelectTopNum_pos dn ([' '] ++ b2) hdn hne rfl]
  have hws : pWsStar ([' '] ++ b2) = ([' '], b2) := pWsStar_pos (by decide) hb2
  simp only [hws]

theorem matchOffsetClause_pos (dk : List Char) (hdk : ∀ c ∈ dk, isDig c = true)
    (hne : dk ≠ []) :
    matchOffsetClause (litOFFSET ++ ([' '] ++ (dk ++ ([' '] ++ (litROW ++ ['S']))))) =
      some (litOFFSET ++ [' '] ++ dk ++ [' '] ++ litROW ++ ['S'], []) := by
  have h1 : pLitCI litOFFSET (litOFFSET ++ ([' '] ++ (dk ++ ([' '] ++ (litROW ++ ['S']))))) =
      some (litOFFSET, [' '] ++ (dk ++ ([' '] ++ (litROW ++ ['S'])))) :=
    pLitCI_of_upper _ _ _ (by decide)
  have h2 : pWs1 ([' '] ++ (dk ++ ([' '] ++ (litROW ++ ['S'])))) =
      some ([' '], dk ++ ([' '] ++ (litROW ++ ['S']))) := by
    apply pWs1_pos (by decide) (by decide)
    rw [headNotB_append hne]
    exact headNotB_isWs_of_digits hdk hne
  have h3 : pDigits1 (dk ++ ([' '] ++ (litROW ++ ['S']))) =
      some (dk, [' '] ++ (litROW ++ ['S'])) := pDigits1_pos hdk hne rfl
  have h4 : pWs1 ([' '] ++ (litROW ++ ['S'])) = some ([' '], litROW ++ ['S']) :=
    pWs1_pos (by decide) (by decide) rfl
  have h5 : pLitCI litROW (litROW ++ ['S']) = some (litROW, ['S']) :=
    pLitCI_of_upper _ _ _ (by decide)
  simp only [matchOffsetClause, h1, h2, h3, h4, h5]
  rfl

theorem mOffSub_pos (n : Nat) (dk : List Char) (hdk : ∀ c ∈ dk, isDig c = true)
    (hne : dk ≠ []) :
    mOffSub n (litOFFSET ++ ([' '] ++ (dk ++ ([' '] ++ (litROW ++ ['S']))))) =
      some (litOFFSET ++ [' '] ++ dk ++ [' '] ++ litROW ++ ['S'] ++
        litSpFETCHNEXTsp ++ natChars n ++ litSpROWSONLYsp, []) := by
  unfold mOffSub
  rw [matchOffsetClause_pos dk hdk hne]

theorem matchFetchNextNum_pos (dn b : List Char) (hdn : ∀ c ∈ dn, isDig c = true)
    (hne : dn ≠ []) (hb : headNotB isDig b = true) :
    matchFetchNextNum (litFETCH ++ ([' '] ++ (litNEXT ++ ([' '] ++ (dn ++ b))))) =
      some dn := by
  have h1 : pLitCI litFETCH (litFETCH ++ ([' '] ++ (litNEXT ++ ([' '] ++ (dn ++ b))))) =
      some (litFETCH, [' '] ++ (litNEXT ++ ([' '] ++ (dn ++ b)))) :=
    pLitCI_of_upper _ _ _ (by decide)
  have h2 : pWs1 ([' '] ++ (litNEXT ++ ([' '] ++ (dn ++ b)))) =
      some ([' '], litNEXT ++ ([' '] ++ (dn ++ b))) :=
    pWs1_pos (by decide) (by decide) rfl
  have h3 : pLitCI litNEXT (litNEXT ++ ([' '] ++ (dn ++ b))) =
      some (litNEXT, [' '] ++ (dn ++ b)) :=
    pLitCI_of_upper _ _ _ (by decide)
  have h4 : pWs1 ([' '] ++ (dn ++ b)) = some ([' '], dn ++ b) := by
    apply pWs1_pos (by decide) (by decide)
    rw [headNotB_append hne]
    exact headNotB_isWs_of_digits hdn hne
  have h5 : pDigits1 (dn ++ b) = some (dn, b) := pDigits1_pos hdn hne hb
  simp only [matchFetchNextNum, h1, h2, h3, h4, h5]

/-! ### Claim C1 — the TOP/OFFSET conflict rewrite

`qScenario n k` is the parametric conflict query
`SELECT TOP n * FROM t ORDER BY id OFFSET k ROWS` (scenario A of the spec
with `n = 100`, `k = 10`); `rScenario n k` is its expected rewriting. -/

def litMID2 : List Char := "* FROM t ORDER BY id OFFSET ".data

def litA : List Char := "SELECT * FROM t ORDER BY id ".data

def litROWSsp : List Char := " ROWS".data

def qScenario (n k : Nat) : List Char :=
  litSELECTTOPsp ++ (natChars n ++ (" * FROM t ORDER BY id OFFSET ".data ++
    (natChars k ++ " ROWS".data)))

def rScenario (n k : Nat) : List Char :=
  "SELECT * FROM t ORDER BY id OFFSET ".data ++
    (natChars k ++ (" ROWS FETCH NEXT ".data ++ (natChars n ++ " ROWS ONLY".data)))

theorem searchSelectTopNum_qScenario (n k : Nat) :
    searchSelectTopNum (qScenario n k) = some (natChars n) := by
  unfold searchSelectTopNum
  exact scanFind_match_some rfl
    (mSelTopFind_pos (natChars n) ([' '] ++ (litMID2 ++ (natChars k ++ litROWSsp)))
      (natChars_all_digits n) (natChars_ne_nil n) rfl)

theorem subSelectTop_qScenario (n k : Nat) :
    subSelectTop (qScenario n k) = litSELECTsp ++ (litMID2 ++ (natChars k ++ litROWSsp)) := by
  have hm : mSelTopSub (qScenario n k) =
      some (litSELECTsp, litMID2 ++ (natChars k ++ litROWSsp)) :=
    mSelTopSub_pos (natChars n) (litMID2 ++ (natChars k ++ litROWSsp))
      (natChars_all_digits n) (natChars_ne_nil n) rfl
  unfold subSelectTop
  rw [scanSub_match_some mSelTopSub_shrinks rfl hm]
  congr 1
  rw [scanSub_skip (fun l h => mSelTopSub_none h) (natChars k ++ litROWSsp)
    (show noSpanCI litSELECT litMID2 = true by decide)]
  congr 1
  rw [scanSub_skip (fun l h => mSelTopSub_none h) litROWSsp
    (show noSpanCI litSELECT (natChars k) = true from
      noSpanCI_digits (by decide) (natChars_all_digits k))]
  congr 1

theorem upperS_no_fetch (k : Nat) :
    hasSub (upperL (litSELECTsp ++ (litMID2 ++ (natChars k ++ litROWSsp)))) litFETCHNEXT =
      false := by
  simp only [upperL_append]
  rw [upperL_digits (natChars_all_digits k)]
  apply hasSub_append_false (show noSpanCS litFETCHNEXT (upperL litSELECTsp) = true by decide)
  apply hasSub_append_false (show noSpanCS litFETCHNEXT (upperL litMID2) = true by decide)
  apply hasSub_append_false (show noSpanCS litFETCHNEXT (natChars k) = true from
    noSpanCS_digits (by decide) (natChars_all_digits k))
  decide

theorem upperS_has_offset (k : Nat) :
    hasSub (upperL (litSELECTsp ++ (litMID2 ++ (natChars k ++ litROWSsp)))) litOFFSET =
      true := by
  simp only [upperL_append]
  apply hasSub_append_right
  apply hasSub_append_left
  decide

theorem subOffsetFetch_S (n k : Nat) :
    subOffsetFetch n (litSELECTsp ++ (litMID2 ++ (natChars k ++ litROWSsp))) =
      litA ++ (litOFFSET ++ [' '] ++ natChars k ++ [' '] ++ litROW ++ ['S'] ++
        litSpFETCHNEXTsp ++ natChars n ++ litSpROWSONLYsp) := by
  have e : litSELECTsp ++ (litMID2 ++ (natChars k ++ litROWSsp)) =
      litA ++ (litOFFSET ++ ([' '] ++ (natChars k ++ ([' '] ++ (litROW ++ ['S']))))) := rfl
  rw [e]
  unfold subOffsetFetch
  rw [scanSub_skip (fun l h => mOffSub_none h)
    (litOFFSET ++ ([' '] ++ (natChars k ++ ([' '] ++ (litROW ++ ['S'])))))
    (show noSpanCI litOFFSET litA = true by decide)]
  congr 1
  rw [scanSub_match_some (mOffSub_shrinks n) rfl
    (mOffSub_pos n (natChars k) (natChars_all_digits k) (natChars_ne_nil k))]
  rw [scanSub_nil, List.append_nil]

theorem fix_qScenario (n k : Nat) :
    fix_top_offset_conflict (qScenario n k) = rScenario n k := by
  unfold fix_top_offset_conflict
  rw [searchSelectTopNum_qScenario n k]
  dsimp only
  rw [subSelectTop_qScenario n k, parseDigits_natChars]
  rw [if_neg (by simp [upperS_no_fetch k])]
  rw [if_pos (upperS_has_offset k)]
  rw [subOffsetFetch_S n k]
  have e2 : litA ++ (litOFFSET ++ [' '] ++ natChars k ++ [' '] ++ litROW ++ ['S'] ++
      litSpFETCHNEXTsp ++ natChars n ++ litSpROWSONLYsp) = rScenario n k ++ [' '] := by
    simp only [rScenario, List.append_assoc]
    rfl
  rw [e2]
  have hh1 : headNotB isWs (rScenario n k) = true := rfl
  have hh2 : headNotB isWs (rScenario n k).reverse = true := by
    simp only [rScenario, List.reverse_append, List.append_assoc]
    rw [headNotB_append (by decide)]
    decide
  exact stripL_append_ws hh1 hh2

theorem qScenario_has_top (n k : Nat) :
    hasSub (upperL (qScenario n k)) litTOP = true := by
  unfold qScenario
  simp only [upperL_append]
  apply hasSub_append_left
  decide

theorem qScenario_has_offset (n k : Nat) :
    hasSub (upperL (qScenario n k)) litOFFSET = true := by
  unfold qScenario
  simp only [upperL_append]
  apply hasSub_append_right
  apply hasSub_append_right
  apply hasSub_append_left
  decide

theorem qScenario_no_limit (n k : Nat) :
    hasSub (upperL (qScenario n k)) litLIMIT = false := by
  unfold qScenario
  simp only [upperL_append]
  rw [upperL_digits (natChars_all_digits n), upperL_digits (natChars_all_digits k)]
  apply hasSub_append_false (show noSpanCS litLIMIT (upperL litSELECTTOPsp) = true by decide)
  apply hasSub_append_false (show noSpanCS litLIMIT (natChars n) = true from
    noSpanCS_digits (by decide) (natChars_all_digits n))
  apply hasSub_append_false
    (show noSpanCS litLIMIT (upperL " * FROM t ORDER BY id OFFSET ".data) = true by decide)
  apply hasSub_append_false (show noSpanCS litLIMIT (natChars k) = true from
    noSpanCS_digits (by decide) (natChars_all_digits k))
  decide

theorem validate_qScenario (n k : Nat) :
    validate_sql_server_query (qScenario n k) = Except.ok (rScenario n k) := by
  have h1 : (hasSub (upperL (qScenario n k)) litTOP &&
      hasSub (upperL (qScenario n k)) litOFFSET) = true := by
    rw [qScenario_has_top, qScenario_has_offset]
    rfl
  have h2 : (hasSub (upperL (qScenario n k)) litLIMIT &&
      !hasSub (upperL (qScenario n k)) litUPLOADED) = false := by
    rw [qScenario_no_limit]
    rfl
  simp only [validate_sql_server_query, h1, h2, if_true, Bool.false_eq_true, if_false]
  rw [fix_qScenario]

theorem rScenario_no_top (n k : Nat) :
    hasSub (upperL (rScenario n k)) litTOP = false := by
  unfold rScenario
  simp only [upperL_append]
  rw [upperL_digits (natChars_all_digits k), upperL_digits (natChars_all_digits n)]
  apply hasSub_append_false
    (show noSpanCS litTOP (upperL "SELECT * FROM t ORDER BY id OFFSET ".data) = true by decide)
  apply hasSub_append_false (show noSpanCS litTOP (natChars k) = true from
    noSpanCS_digits (by decide) (natChars_all_digits k))
  apply hasSub_append_false
    (show noSpanCS litTOP (upperL " ROWS FETCH NEXT ".data) = true by decide)
  apply hasSub_append_false (show noSpanCS litTOP (natChars n) = true from
    noSpanCS_digits (by decide) (natChars_all_digits n))
  decide

theorem rScenario_offset_count (n k : Nat) :
    countOccCI litOFFSET (rScenario n k) = 1 := by
  have e : rScenario n k =
      litA ++ (litOFFSET ++ ([' '] ++ (natChars k ++ (" ROWS FETCH NEXT ".data ++
        (natChars n ++ " ROWS ONLY".data))))) := rfl
  rw [e]
  rw [countOccCI_skip _ (show noSpanCI litOFFSET litA = true by decide)]
  rw [countOccCI_match_some (show pLitCI litOFFSET [] = none from rfl)
    (pLitCI_of_upper litOFFSET litOFFSET _ (by decide))]
  show 1 + countOccCI litOFFSET ("FFSET ".data ++ (natChars k ++
    (" ROWS FETCH NEXT ".data ++ (natChars n ++ " ROWS ONLY".data)))) = 1
  rw [countOccCI_skip _ (show noSpanCI litOFFSET "FFSET ".data = true by decide)]
  rw [countOccCI_skip _ (show noSpanCI litOFFSET (natChars k) = true from
    noSpanCI_digits (by decide) (natChars_all_digits k))]
  rw [countOccCI_skip _ (show noSpanCI litOFFSET " ROWS FETCH NEXT ".data = true by decide)]
  rw [countOccCI_skip _ (show noSpanCI litOFFSET (natChars n) = true from
    noSpanCI_digits (by decide) (natChars_all_digits n))]
  decide

theorem rScenario_fetch_count (n k : Nat) :
    countOccCI litFETCH (rScenario n k) = 1 := by
  have e : rScenario n k =
      "SELECT * FROM t ORDER BY id OFFSET ".data ++ (natChars k ++ (" ROWS ".data ++
        (litFETCH ++ (" NEXT ".data ++ (natChars n ++ " ROWS ONLY".data))))) := rfl
  rw [e]
  rw [countOccCI_skip _
    (show noSpanCI litFETCH "SELECT * FROM t ORDER BY id OFFSET ".data = true by decide)]
  rw [countOccCI_skip _ (show noSpanCI litFETCH (natChars k) = true from
    noSpanCI_digits (by decide) (natChars_all_digits k))]
  rw [countOccCI_skip _ (show noSpanCI litFETCH " ROWS ".data = true by decide)]
  rw [countOccCI_match_some (show pLitCI litFETCH [] = none from rfl)
    (pLitCI_of_upper litFETCH litFETCH _ (by decide))]
  show 1 + countOccCI litFETCH ("ETCH".data ++ (" NEXT ".data ++
    (natChars n ++ " ROWS ONLY".data))) = 1
  rw [countOccCI_skip _ (show noSpanCI litFETCH "ETCH".data = true by decide)]
  rw [countOccCI_skip _ (show noSpanCI litFETCH " NEXT ".data = true by decide)]
  rw [countOccCI_skip _ (show noSpanCI litFETCH (natChars n) = true from
    noSpanCI_digits (by decide) (natChars_all_digits n))]
  decide

theorem rScenario_fetch_value (n k : Nat) :
    searchFetchNextNum (rScenario n k) = some (natChars n) := by
  have e : rScenario n k =
      "SELECT * FROM t ORDER BY id OFFSET ".data ++ (natChars k ++ (" ROWS ".data ++
        (litFETCH ++ ([' '] ++ (litNEXT ++ ([' '] ++ (natChars n ++
          " ROWS ONLY".data))))))) := rfl
  rw [e]
  unfold searchFetchNextNum
  rw [scanFind_skip (fun l h => matchFetchNextNum_none h) _
    (show noSpanCI litFETCH "SELECT * FROM t ORDER BY id OFFSET ".data = true by decide)]
  rw [scanFind_skip (fun l h => matchFetchNextNum_none h) _
    (show noSpanCI litFETCH (natChars k) = true from
      noSpanCI_digits (by decide) (natChars_all_digits k))]
  rw [scanFind_skip (fun l h => matchFetchNextNum_none h) _
    (show noSpanCI litFETCH " ROWS ".data = true by decide)]
  exact scanFind_match_some rfl
    (matchFetchNextNum_pos (natChars n) " ROWS ONLY".data (natChars_all_digits n)
      (natChars_ne_nil n) rfl)

/-- C1 counterexample: on a query that already carries a fetch-next clause,
the rewrite strips the TOP clause (requesting 100 rows) but keeps the
existing fetch count, so the surviving pagination construct requests 5
rows, not the original 100. -/
theorem C1_top_offset_counterexample :
    validate_sql_server_query
        "SELECT TOP 100 * FROM t ORDER BY id OFFSET 10 ROWS FETCH NEXT 5 ROWS ONLY".data =
      Except.ok "SELECT * FROM t ORDER BY id OFFSET 10 ROWS FETCH NEXT 5 ROWS ONLY".data ∧
    searchFetchNextNum
        "SELECT * FROM t ORDER BY id OFFSET 10 ROWS FETCH NEXT 5 ROWS ONLY".data =
      some ['5'] ∧
    parseDigits ['5'] ≠ 100 :=
  ⟨rfl, rfl, by decide⟩

/-- C1 (amended): for every `n` and `k`, the conflict query
`SELECT TOP n * FROM t ORDER BY id OFFSET k ROWS` — which contains both a
count-style clause requesting `n` rows and an offset clause, and no
pre-existing fetch clause — is rewritten to
`SELECT * FROM t ORDER BY id OFFSET k ROWS FETCH NEXT n ROWS ONLY`, which
contains no TOP clause, exactly one offset clause and exactly one fetch
clause, and that pagination construct requests exactly `n` rows. -/
theorem C1_top_offset_rewrite (n k : Nat) :
    hasSub (upperL (qScenario n k)) litTOP = true ∧
    hasSub (upperL (qScenario n k)) litOFFSET = true ∧
    validate_sql_server_query (qScenario n k) = Except.ok (rScenario n k) ∧
    hasSub (upperL (rScenario n k)) litTOP = false ∧
    countOccCI litOFFSET (rScenario n k) = 1 ∧
    countOccCI litFETCH (rScenario n k) = 1 ∧
    (searchFetchNextNum (rScenario n k)).map parseDigits = some n :=
  ⟨qScenario_has_top n k, qScenario_has_offset n k, validate_qScenario n k,
    rScenario_no_top n k, rScenario_offset_count n k, rScenario_fetch_count n k,
    by simp [rScenario_fetch_value n k, parseDigits_natChars]⟩

end LLMWebApp
